import Mathlib

/-!
Verification development for the file-process-tracker repository.

The Python sources (src/file_processor.py, src/database.py, src/main.py) are
shallowly embedded below.  The filesystem is modelled explicitly: the source
directory enumeration (the result of `Path.glob` filtered to regular files)
is an input `listing : List SrcFile`, and the flat target directory is a list
of (name, size) entries.  Machine effects that the Python code observes but
does not control — the byte count that `shutil.copy2` actually places at the
target, SQLite storage-level insert failures, and the outcome of hash
computation — are supplied by an explicit environment `Env`.  Wall-clock
elapsed time of a batch is likewise an input `elapsed`.
-/

/-- A regular file found under the source directory: its full path, its base
filename (`Path.name`) and its byte size (`stat().st_size`). -/
structure SrcFile where
  path : String
  name : String
  size : Nat
deriving DecidableEq, Repr

/-- One row of the `processed_files` table (src/database.py lines 47-58). -/
structure FRecord where
  filename : String
  source_path : String
  target_path : String
  size : Nat
  hash : Option String
deriving DecidableEq, Repr

/-- The record store: the `processed_files` table and the `errors` table
(filename, error_type, error_message). -/
structure DB where
  records : List FRecord
  errors : List (String × String × String)
deriving DecidableEq, Repr

/-- The flat target directory: a list of (base filename, byte size) entries. -/
structure FS where
  target : List (String × Nat)
deriving DecidableEq, Repr

/-- Machine effects outside the program's control: the byte count that
`shutil.copy2` actually writes for a given source path, whether the SQLite
insert for a given filename fails at the storage layer, and the hash result
for a target file (`none` models a hashing failure or disabled hashing). -/
structure Env where
  writtenSize : String → Nat
  dbInsertFails : String → Bool
  hashOf : String → Option String

/-- The FileProcessor configuration fields the processing path depends on
(src/file_processor.py lines 28-62).  The `recursive` flag only selects the
glob pattern and hence which `listing` is presented, so it is absorbed into
the `listing` input. -/
structure Cfg where
  batch_size : Nat
  compute_hash : Bool
  exclude_patterns : List String
  dry_run : Bool

/-- The statistics dictionary built by `FileProcessor.process_batch`
(src/file_processor.py lines 197-205 and 312).  `duration : Option Nat`
models the `stats['duration']` key: `none` means the key is absent, as on
the two early-return paths. -/
structure Stats where
  processed : Nat := 0
  skipped : Nat := 0
  errors : Nat := 0
  total_size : Nat := 0
  files_processed : List String := []
  files_skipped : List String := []
  files_errors : List (String × String) := []
  duration : Option Nat := none
deriving DecidableEq, Repr

/-- Lexicographic comparison of character lists by code point; this is the
order Python uses to compare `str` values (and hence the order used by
`files.sort(key=lambda p: p.name)`). -/
def charListLe : List Char → List Char → Bool
  | [], _ => true
  | _ :: _, [] => false
  | a :: as, b :: bs => if a = b then charListLe as bs else decide (a < b)

/-- Lexicographic order on base filenames, as a relation on source files. -/
def nameLe (a b : SrcFile) : Prop := charListLe a.name.toList b.name.toList = true

instance : DecidableRel nameLe := fun a b => by unfold nameLe; infer_instance

/-- Membership of a character in the body of a `[...]` character class:
`a-b` denotes a code-point range (an inverted range matches nothing, as in
`fnmatch.translate`), other characters — including a leading or trailing
hyphen — denote themselves. -/
def setMember : List Char → Char → Bool
  | [], _ => false
  | [a], c => a = c
  | a :: '-' :: [], c => a = c || c = '-'
  | a :: '-' :: b :: rest, c => (a ≤ b && a ≤ c && c ≤ b) || setMember rest c
  | a :: rest, c => a = c || setMember rest c

/-- Scan for the closing `]` of a character class, returning the class body
and the remainder of the pattern; `none` when the class is unterminated. -/
def scanClose : List Char → Option (List Char × List Char)
  | [] => none
  | ']' :: rest => some ([], rest)
  | c :: rest =>
    match scanClose rest with
    | some (content, rest') => some (c :: content, rest')
    | none => none

/-- Parse a `[...]` class starting just after the `[`: an optional leading
`!` negates, a `]` immediately after that is a literal member, and an
unterminated class makes the `[` literal (result `none`), exactly as in
`fnmatch.translate`. -/
def splitBracket (p : List Char) : Option (Bool × List Char × List Char) :=
  match p with
  | '!' :: ']' :: rest =>
    match scanClose rest with
    | some (content, rest') => some (true, ']' :: content, rest')
    | none => none
  | '!' :: rest =>
    match scanClose rest with
    | some (content, rest') => some (true, content, rest')
    | none => none
  | ']' :: rest =>
    match scanClose rest with
    | some (content, rest') => some (false, ']' :: content, rest')
    | none => none
  | rest =>
    match scanClose rest with
    | some (content, rest') => some (false, content, rest')
    | none => none

/-- Shell-glob matching with explicit fuel; every recursive call shrinks
`pattern.length + subject.length` by at least one, so any fuel above that
sum never runs out (the fuel-exhausted arm is unreachable from
`globMatch`). -/
def globMatchF : Nat → List Char → List Char → Bool
  | 0, _, _ => false
  | _ + 1, [], [] => true
  | _ + 1, [], _ :: _ => false
  | k + 1, '*' :: ps, [] => globMatchF k ps []
  | k + 1, '*' :: ps, c :: cs => globMatchF k ps (c :: cs) || globMatchF k ('*' :: ps) cs
  | _ + 1, '?' :: _, [] => false
  | k + 1, '?' :: ps, _ :: cs => globMatchF k ps cs
  | _ + 1, '[' :: _, [] => false
  | k + 1, '[' :: ps, c :: cs =>
    match splitBracket ps with
    | some (neg, content, rest) =>
      (if neg then !(setMember content c) else setMember content c) && globMatchF k rest cs
    | none => ('[' = c) && globMatchF k ps cs
  | _ + 1, _ :: _, [] => false
  | k + 1, a :: ps, c :: cs => (a = c) && globMatchF k ps cs

/-- Shell-glob matching of a name against a pattern, as in `fnmatch.fnmatch`
on a posix platform: `*` matches any (possibly empty) sequence, `?` any
single character, `[...]` a character class, anything else itself. -/
def globMatch (p s : List Char) : Bool :=
  globMatchF (p.length + s.length + 1) p s

/-- Python `fnmatch.fnmatch(name, pattern)` (case-sensitive platform). -/
def fnmatchB (name pattern : String) : Bool :=
  globMatch pattern.toList name.toList

/-- FileProcessor._is_excluded (src/file_processor.py lines 105-122): the
base filename is excluded when it matches any configured pattern. -/
def is_excluded (exclude_patterns : List String) (filename : String) : Bool :=
  exclude_patterns.any (fun pattern => fnmatchB filename pattern)

/-- FileProcessor.get_source_files (src/file_processor.py lines 79-103):
keep the non-excluded regular files of the enumeration and sort them by base
filename.  Python `list.sort` is a stable sort by the key `p.name`;
`List.insertionSort` with the same (total, transitive) key order is the same
stable sort. -/
def get_source_files (listing : List SrcFile) (exclude_patterns : List String) :
    List SrcFile :=
  List.insertionSort nameLe (listing.filter (fun f => !(is_excluded exclude_patterns f.name)))

/-- DatabaseManager.is_file_processed (src/database.py lines 108-124). -/
def DB.is_file_processed (db : DB) (filename : String) : Bool :=
  db.records.any (fun r => r.filename = filename)

/-- DatabaseManager.add_processed_file (src/database.py lines 126-163): the
INSERT raises on a storage-level failure, or on violation of the UNIQUE
constraint on `filename`; otherwise the row is appended. -/
def DB.add_processed_file (db : DB) (env : Env) (r : FRecord) : Except String DB :=
  if env.dbInsertFails r.filename then
    .error "StorageError"
  else if db.records.any (fun q => q.filename = r.filename) then
    .error "UNIQUE constraint failed: processed_files.filename"
  else
    .ok { db with records := db.records ++ [r] }

/-- DatabaseManager.log_error (src/database.py lines 165-193). -/
def DB.log_error (db : DB) (filename error_type error_message : String) : DB :=
  { db with errors := db.errors ++ [(filename, error_type, error_message)] }

/-- DatabaseManager.get_unprocessed_files (src/database.py lines 223-250):
keep, in order, the input names that have no `processed_files` row. -/
def DB.get_unprocessed_files (db : DB) (source_files : List String) : List String :=
  source_files.filter (fun f => !(db.is_file_processed f))

/-- Existence test for a name in the target directory. -/
def FS.fileExists (fs : FS) (n : String) : Bool :=
  fs.target.any (fun e => e.1 = n)

/-- Creation of a target file of the given size. -/
def FS.write (fs : FS) (n : String) (sz : Nat) : FS :=
  ⟨fs.target ++ [(n, sz)]⟩

/-- Deletion (`Path.unlink`) of a target file. -/
def FS.unlink (fs : FS) (n : String) : FS :=
  ⟨fs.target.filter (fun e => !(e.1 = n))⟩

/-- FileProcessor._copy_file (src/file_processor.py lines 146-187): fail if
the target name already exists; in dry-run mode report success without
touching the filesystem; otherwise copy, then compare the source byte count
with the byte count actually written and on mismatch delete the fresh copy
and fail.  (The `target.exists()` re-check after `shutil.copy2` cannot fail
in this model, since a write always creates the entry.) -/
def copy_file (cfg : Cfg) (env : Env) (fs : FS) (source : SrcFile)
    (targetName : String) : (Bool × Option String) × FS :=
  if fs.fileExists targetName then
    ((false, some "File already exists in target"), fs)
  else if cfg.dry_run then
    ((true, none), fs)
  else
    let written := env.writtenSize source.path
    let fs1 := fs.write targetName written
    if source.size = written then
      ((true, none), fs1)
    else
      ((false, some "Incorrect size after copy"), fs1.unlink targetName)

/-- The record inserted for a successfully copied file
(src/file_processor.py lines 279-286); the hash is computed only when
enabled and not in dry-run mode, and a hash failure leaves it `none`. -/
def mkRecord (cfg : Cfg) (env : Env) (f : SrcFile) : FRecord :=
  { filename := f.name
    source_path := f.path
    target_path := f.name
    size := f.size
    hash := if cfg.compute_hash && !cfg.dry_run then env.hashOf f.name else none }

/-- The per-file loop state of `process_batch`. -/
abbrev PState := Stats × DB × FS

/-- One iteration of the per-file loop of FileProcessor.process_batch
(src/file_processor.py lines 235-305): re-check the database, copy, on copy
failure log `COPY_ERROR` (real mode only) and count an error, otherwise
insert the record, and on insert failure delete the fresh copy, log
`DB_ERROR`, and count an error; on full success count the file as
processed. -/
def processOne (cfg : Cfg) (env : Env) : PState → SrcFile → PState :=
  fun st f =>
    let stats := st.1
    let db := st.2.1
    let fs := st.2.2
    let filename := f.name
    let file_size := f.size
    if db.is_file_processed filename then
      ({ stats with
          skipped := stats.skipped + 1
          files_skipped := stats.files_skipped ++ [filename] }, db, fs)
    else
      let cr := copy_file cfg env fs f filename
      let success := cr.1.1
      let errMsg := cr.1.2.getD ""
      let fs1 := cr.2
      if success = false then
        let db1 := if cfg.dry_run then db else db.log_error filename "COPY_ERROR" errMsg
        ({ stats with
            errors := stats.errors + 1
            files_errors := stats.files_errors ++ [(filename, errMsg)] }, db1, fs1)
      else if cfg.dry_run then
        ({ stats with
            processed := stats.processed + 1
            total_size := stats.total_size + file_size
            files_processed := stats.files_processed ++ [filename] }, db, fs1)
      else
        match db.add_processed_file env (mkRecord cfg env f) with
        | .ok db1 =>
          ({ stats with
              processed := stats.processed + 1
              total_size := stats.total_size + file_size
              files_processed := stats.files_processed ++ [filename] }, db1, fs1)
        | .error e =>
          let fs2 := if fs1.fileExists filename then fs1.unlink filename else fs1
          let db1 := db.log_error filename "DB_ERROR" e
          ({ stats with
              errors := stats.errors + 1
              files_errors := stats.files_errors ++ [(filename, e)] }, db1, fs2)

/-- The batch-selection loop of FileProcessor.process_batch
(src/file_processor.py lines 218-223): walk the sorted source files,
collect those whose name is still unprocessed, and stop as soon as the
batch size is reached. -/
def selectFiles (unprocessed : List String) (batch_size : Nat) :
    List SrcFile → List SrcFile → List SrcFile
  | [], acc => acc
  | f :: rest, acc =>
    if f.name ∈ unprocessed then
      if batch_size ≤ acc.length + 1 then acc ++ [f]
      else selectFiles unprocessed batch_size rest (acc ++ [f])
    else selectFiles unprocessed batch_size rest acc

/-- FileProcessor.process_batch (src/file_processor.py lines 189-322).
`elapsed` is the wall-clock duration of the batch; the two early returns
hand back the zero-initialised stats, whose `duration` key is absent. -/
def process_batch (cfg : Cfg) (env : Env) (listing : List SrcFile)
    (db : DB) (fs : FS) (elapsed : Nat) : Stats × DB × FS :=
  let stats0 : Stats := {}
  let source_files := get_source_files listing cfg.exclude_patterns
  if source_files.isEmpty then (stats0, db, fs)
  else
    let filenames := source_files.map SrcFile.name
    let unprocessed_names := db.get_unprocessed_files filenames
    let files_to_process := selectFiles unprocessed_names cfg.batch_size source_files []
    if files_to_process.isEmpty then (stats0, db, fs)
    else
      let res := files_to_process.foldl (processOne cfg env) (stats0, db, fs)
      ({ res.1 with duration := some elapsed }, res.2)

/-- FileProcessor.verify_target_files (src/file_processor.py lines 324-336). -/
def verify_target_files (fs : FS) : List String :=
  fs.target.map Prod.fst

/-- FileProcessor.clean_target_orphans (src/file_processor.py lines
338-377): the target names without a database record form a set of orphans;
in real mode each is deleted, in dry-run mode each is merely counted. -/
def clean_target_orphans (dry_run : Bool) (db : DB) (fs : FS) : Nat × FS :=
  let target_files := verify_target_files fs
  if target_files.isEmpty then (0, fs)
  else
    let processed := target_files.filter (fun n => db.is_file_processed n)
    let orphans := (target_files.filter (fun n => !(n ∈ processed))).dedup
    if orphans.isEmpty then (0, fs)
    else if dry_run then (orphans.length, fs)
    else (orphans.length, orphans.foldl (fun acc n => acc.unlink n) fs)

/-- Outcome of one CLI invocation of main (src/main.py lines 100-264): the
batch completed with some statistics, or an exception escaped — a
`FileNotFoundError` (e.g. missing configuration file), a `ValueError` (e.g.
missing required field, non-positive batch size, nonexistent source
directory), or any other exception. -/
inductive RunOutcome where
  | completed (result : Stats)
  | fileNotFound (msg : String)
  | valueError (msg : String)
  | otherError (msg : String)

/-- The process exit code produced by main (src/main.py lines 241-264):
`sys.exit(1)` when the batch reported errors, implicit exit 0 otherwise;
the `FileNotFoundError` and `ValueError` handlers call `sys.exit(1)`, the
generic handler calls `sys.exit(2)`. -/
def exit_code : RunOutcome → Nat
  | .completed s => if s.errors > 0 then 1 else 0
  | .fileNotFound _ => 1
  | .valueError _ => 1
  | .otherError _ => 2

/-- An operation against the shared store and target directory: a whole
`process_batch` run, a direct `add_processed_file` attempt (a duplicate or
concurrent insert; a raised error leaves the store unchanged), an error log
insert, or an orphan-cleaning pass. -/
inductive Op where
  | batch (cfg : Cfg) (env : Env) (listing : List SrcFile) (elapsed : Nat)
  | add (env : Env) (r : FRecord)
  | logErr (filename error_type error_message : String)
  | clean (dry_run : Bool)

/-- Effect of one operation on the store and the target directory. -/
def applyOp : DB × FS → Op → DB × FS
  | (db, fs), .batch cfg env listing elapsed =>
    (process_batch cfg env listing db fs elapsed).2
  | (db, fs), .add env r =>
    match db.add_processed_file env r with
    | .ok db1 => (db1, fs)
    | .error _ => (db, fs)
  | (db, fs), .logErr f t m => (db.log_error f t m, fs)
  | (db, fs), .clean dry => (db, (clean_target_orphans dry db fs).2)

/-- Replay of a sequence of operations from an empty store and an empty
target directory. -/
def replay (ops : List Op) : DB × FS :=
  ops.foldl applyOp (⟨[], []⟩, ⟨[]⟩)

/-- Success test for an `Except` result. -/
def exceptIsOk : Except String DB → Bool
  | .ok _ => true
  | .error _ => false

/-! Basic lemmas about the filesystem and record-store operations. -/

theorem fileExists_write (fs : FS) (n : String) (sz : Nat) (m : String) :
    (fs.write n sz).fileExists m = (fs.fileExists m || n = m) := by
  simp [FS.write, FS.fileExists, List.any_append]

theorem fileExists_false_iff (fs : FS) (n : String) :
    fs.fileExists n = false ↔ ∀ e ∈ fs.target, e.1 ≠ n := by
  simp [FS.fileExists]

theorem unlink_write_of_not_exists (fs : FS) (n : String) (sz : Nat)
    (h : fs.fileExists n = false) : (fs.write n sz).unlink n = fs := by
  rw [fileExists_false_iff] at h
  simp only [FS.write, FS.unlink, List.filter_append]
  have h1 : fs.target.filter (fun e => !(e.1 = n)) = fs.target :=
    List.filter_eq_self.mpr (fun e he => by simpa using h e he)
  have h2 : List.filter (fun e => !(e.1 = n)) [(n, sz)] = [] := by simp
  rw [h1, h2, List.append_nil]

theorem is_file_processed_append (rs : List FRecord) (es : List (String × String × String))
    (r : FRecord) (m : String) :
    (DB.mk (rs ++ [r]) es).is_file_processed m
      = ((DB.mk rs es).is_file_processed m || r.filename = m) := by
  simp [DB.is_file_processed, List.any_append]

theorem log_error_records (db : DB) (f t m : String) :
    (db.log_error f t m).records = db.records := rfl

theorem log_error_is_file_processed (db : DB) (f t m n : String) :
    (db.log_error f t m).is_file_processed n = db.is_file_processed n := rfl

theorem add_processed_file_ok (db : DB) (env : Env) (r : FRecord)
    (h1 : env.dbInsertFails r.filename = false)
    (h2 : db.is_file_processed r.filename = false) :
    db.add_processed_file env r = .ok { db with records := db.records ++ [r] } := by
  simp [DB.add_processed_file, h1, DB.is_file_processed] at h2 ⊢
  exact h2

theorem add_processed_file_dup (db : DB) (env : Env) (r : FRecord)
    (h2 : db.is_file_processed r.filename = true) :
    db.add_processed_file env r = .error "StorageError"
      ∨ db.add_processed_file env r = .error "UNIQUE constraint failed: processed_files.filename" := by
  simp [DB.is_file_processed] at h2
  by_cases h1 : env.dbInsertFails r.filename
  · left; simp [DB.add_processed_file, h1]
  · right; simp [DB.add_processed_file, h1, h2]

/-! Lemmas about the batch-selection loop. -/

theorem selectFiles_split (u : List String) (b : Nat) (l acc : List SrcFile) :
    ∃ s, selectFiles u b l acc = acc ++ s ∧ s.Sublist l := by
  induction l generalizing acc with
  | nil => exact ⟨[], by simp [selectFiles]⟩
  | cons f rest ih =>
    by_cases hf : f.name ∈ u
    · by_cases hb : b ≤ acc.length + 1
      · exact ⟨[f], by simp [selectFiles, hf, hb]⟩
      · obtain ⟨s, hs, hsub⟩ := ih (acc ++ [f])
        refine ⟨f :: s, ?_, List.Sublist.cons₂ f hsub⟩
        simp [selectFiles, hf, hb, hs]
    · obtain ⟨s, hs, hsub⟩ := ih acc
      exact ⟨s, by simp [selectFiles, hf, hs], List.Sublist.cons f hsub⟩

theorem selectFiles_eq_take_filter (u : List String) (b : Nat) (l : List SrcFile) :
    ∀ acc, acc.length < b →
      selectFiles u b l acc
        = acc ++ (l.filter (fun f => decide (f.name ∈ u))).take (b - acc.length) := by
  induction l with
  | nil => intro acc _; simp [selectFiles]
  | cons f rest ih =>
    intro acc hacc
    by_cases hf : f.name ∈ u
    · by_cases hb : b ≤ acc.length + 1
      · have hb1 : b - acc.length = 1 := by omega
        simp [selectFiles, hf, hb, hb1, List.take_succ_cons]
      · have hstep := ih (acc ++ [f]) (by simp; omega)
        have hb2 : b - acc.length = (b - (acc.length + 1)) + 1 := by omega
        simp only [selectFiles, if_pos hf, if_neg hb, hstep]
        simp [hb2, hf, List.filter_cons, List.take_succ_cons]
    · simp [selectFiles, hf, ih acc hacc]

/-! Lemma about a clean batch: when none of the files of the batch is
recorded or present in the target, all names in the batch are distinct, the
environment writes faithful sizes and the storage accepts every insert, the
per-file loop copies and records every file. -/

theorem foldl_processOne_clean (cfg : Cfg) (env : Env) (hdry : cfg.dry_run = false)
    (L : List SrcFile) :
    ∀ (stats : Stats) (db : DB) (fs : FS),
      (L.map SrcFile.name).Nodup →
      (∀ f ∈ L, db.is_file_processed f.name = false) →
      (∀ f ∈ L, fs.fileExists f.name = false) →
      (∀ f ∈ L, env.writtenSize f.path = f.size) →
      (∀ f ∈ L, env.dbInsertFails f.name = false) →
      L.foldl (processOne cfg env) (stats, db, fs)
        = ({ stats with
              processed := stats.processed + L.length
              total_size := stats.total_size + (L.map SrcFile.size).sum
              files_processed := stats.files_processed ++ L.map SrcFile.name },
           { db with records := db.records ++ L.map (mkRecord cfg env) },
           ⟨fs.target ++ L.map (fun f => (f.name, f.size))⟩) := by
  induction L with
  | nil =>
    intro stats db fs _ _ _ _ _
    simp
  | cons f rest ih =>
    intro stats db fs hnd hdb hfs hw hdbf
    have hdbf1 : db.is_file_processed f.name = false := hdb f (by simp)
    have hfs1 : fs.fileExists f.name = false := hfs f (by simp)
    have hw1 : env.writtenSize f.path = f.size := hw f (by simp)
    have hins1 : env.dbInsertFails f.name = false := hdbf f (by simp)
    have hstep : processOne cfg env (stats, db, fs) f
        = ({ stats with
              processed := stats.processed + 1
              total_size := stats.total_size + f.size
              files_processed := stats.files_processed ++ [f.name] },
           { db with records := db.records ++ [mkRecord cfg env f] },
           fs.write f.name f.size) := by
      have hadd := add_processed_file_ok db env (mkRecord cfg env f)
        (by simpa [mkRecord] using hins1) (by simpa [mkRecord] using hdbf1)
      simp [processOne, hdbf1, copy_file, hfs1, hdry, hw1, hadd]
    have hname : f.name ∉ rest.map SrcFile.name := by
      simp only [List.map_cons, List.nodup_cons] at hnd
      exact hnd.1
    rw [List.foldl_cons, hstep,
      ih _ _ _ (by simp only [List.map_cons, List.nodup_cons] at hnd; exact hnd.2)
        (fun g hg => by
          have hg0 := hdb g (by simp [hg])
          have : ¬ (mkRecord cfg env f).filename = g.name := by
            simp only [mkRecord]
            intro hcon
            exact hname (hcon ▸ List.mem_map_of_mem SrcFile.name hg)
          simpa [is_file_processed_append, hg0] using this)
        (fun g hg => by
          have hg0 := hfs g (by simp [hg])
          have : ¬ f.name = g.name := by
            intro hcon
            exact hname (hcon ▸ List.mem_map_of_mem SrcFile.name hg)
          simp [fileExists_write, hg0, this])
        (fun g hg => hw g (by simp [hg]))
        (fun g hg => hdbf g (by simp [hg]))]
    simp [FS.write, Stats.mk.injEq, DB.mk.injEq, Nat.add_assoc]
    omega

/-! The filename order is total and transitive, so the sort really sorts. -/

theorem charListLe_total : ∀ x y : List Char, charListLe x y = true ∨ charListLe y x = true := by
  intro x
  induction x with
  | nil => intro y; left; simp [charListLe]
  | cons a as ih =>
    intro y
    cases y with
    | nil => right; simp [charListLe]
    | cons b bs =>
      by_cases hab : a = b
      · subst hab
        rcases ih bs with h | h
        · left; simpa [charListLe] using h
        · right; simpa [charListLe] using h
      · rcases lt_or_gt_of_ne hab with h | h
        · left; simp [charListLe, hab, h]
        · right; simp [charListLe, Ne.symm hab, h]

theorem charListLe_trans :
    ∀ x y z : List Char, charListLe x y = true → charListLe y z = true →
      charListLe x z = true := by
  intro x
  induction x with
  | nil => intro y z _ _; simp [charListLe]
  | cons a as ih =>
    intro y z hxy hyz
    cases y with
    | nil => simp [charListLe] at hxy
    | cons b bs =>
      cases z with
      | nil => simp [charListLe] at hyz
      | cons c cs =>
        by_cases hab : a = b
        · subst hab
          by_cases hbc : a = c
          · subst hbc
            simp only [charListLe, if_pos rfl] at hxy hyz ⊢
            exact ih bs cs hxy hyz
          · simp only [charListLe, if_pos rfl] at hxy
            simp only [charListLe, if_neg hbc] at hyz ⊢
            exact hyz
        · by_cases hbc : b = c
          · subst hbc
            simp only [charListLe, if_neg hab] at hxy ⊢
            exact hxy
          · simp only [charListLe, if_neg hab] at hxy
            simp only [charListLe, if_neg hbc] at hyz
            have hac : a < c := lt_trans (of_decide_eq_true hxy) (of_decide_eq_true hyz)
            have : a ≠ c := ne_of_lt hac
            simp [charListLe, this, hac]

instance : IsTotal SrcFile nameLe :=
  ⟨fun a b => charListLe_total a.name.toList b.name.toList⟩

instance : IsTrans SrcFile nameLe :=
  ⟨fun a b c => charListLe_trans a.name.toList b.name.toList c.name.toList⟩

theorem get_source_files_sorted (listing : List SrcFile) (pats : List String) :
    (get_source_files listing pats).Sorted nameLe :=
  List.sorted_insertionSort nameLe _

theorem get_source_files_perm (listing : List SrcFile) (pats : List String) :
    (get_source_files listing pats).Perm
      (listing.filter (fun f => !(is_excluded pats f.name))) :=
  List.perm_insertionSort nameLe _

theorem get_source_files_nodup (listing : List SrcFile) (pats : List String)
    (h : (listing.map SrcFile.name).Nodup) :
    ((get_source_files listing pats).map SrcFile.name).Nodup := by
  have h1 : ((listing.filter (fun f => !(is_excluded pats f.name))).map SrcFile.name).Nodup :=
    ((List.filter_sublist listing).map SrcFile.name).nodup h
  exact ((get_source_files_perm listing pats).map SrcFile.name).nodup_iff.mpr h1

theorem get_source_files_mem (listing : List SrcFile) (pats : List String) (f : SrcFile) :
    f ∈ get_source_files listing pats
      ↔ f ∈ listing ∧ is_excluded pats f.name = false := by
  rw [(get_source_files_perm listing pats).mem_iff]
  simp

/-! Helper lemmas relating a prefix of the sorted list, the records built
from it, and the remaining suffix. -/

theorem names_take_drop_disjoint {l : List SrcFile} (h : (l.map SrcFile.name).Nodup)
    (m : Nat) :
    ∀ f ∈ l.take m, f.name ∉ (l.drop m).map SrcFile.name := by
  intro f hf hmem
  rw [← List.take_append_drop m l, List.map_append, List.nodup_append] at h
  exact h.2.2 (List.mem_map_of_mem SrcFile.name hf) hmem

theorem is_file_processed_mkRecords (cfg : Cfg) (env : Env) (l : List SrcFile)
    (es : List (String × String × String)) (n : String) :
    (DB.mk (l.map (mkRecord cfg env)) es).is_file_processed n
      = decide (n ∈ l.map SrcFile.name) := by
  induction l with
  | nil => simp [DB.is_file_processed]
  | cons f rest ih =>
    simp only [DB.is_file_processed, List.map_cons, List.any_cons] at ih ⊢
    by_cases h : (mkRecord cfg env f).filename = n
    · simp [mkRecord] at h
      simp [mkRecord, h]
    · simp only [mkRecord] at h
      simp [mkRecord, h, Ne.symm h, ih]

theorem fileExists_mapped (l : List SrcFile) (n : String) :
    (FS.mk (l.map (fun f => (f.name, f.size)))).fileExists n
      = decide (n ∈ l.map SrcFile.name) := by
  induction l with
  | nil => simp [FS.fileExists]
  | cons f rest ih =>
    simp only [FS.fileExists, List.map_cons, List.any_cons] at ih ⊢
    by_cases h : f.name = n
    · simp [h]
    · simp [h, Ne.symm h, ih]

theorem filter_names_not_mem (tn dn : List String) (hdisj : ∀ n ∈ tn, n ∉ dn) :
    (tn ++ dn).filter (fun n => !(decide (n ∈ tn))) = dn := by
  rw [List.filter_append]
  rw [List.filter_eq_nil_iff.mpr (by intro n hn; simp [hn]),
    List.filter_eq_self.mpr (by intro n hn; simpa using fun hmem => hdisj n hmem hn)]
  simp

theorem filter_mem_names (t d : List SrcFile)
    (hdisj : ∀ f ∈ t, f.name ∉ d.map SrcFile.name) :
    (t ++ d).filter (fun f => decide (f.name ∈ d.map SrcFile.name)) = d := by
  rw [List.filter_append]
  rw [List.filter_eq_nil_iff.mpr (by intro f hf; simpa using hdisj f hf),
    List.filter_eq_self.mpr
      (by intro f hf; simpa using List.mem_map_of_mem SrcFile.name hf)]
  simp

/-! Machinery for repeated batch runs against an unchanging source. -/

/-- The statistics a clean run reports when `m` files of the sorted source
list are already recorded: the next `batch_size` sorted files get processed;
when none remain the zero-initialised stats (duration absent) come back. -/
def batchStats (cfg : Cfg) (listing : List SrcFile) (elapsed m : Nat) : Stats :=
  let seg := ((get_source_files listing cfg.exclude_patterns).drop m).take cfg.batch_size
  if seg.isEmpty then {}
  else
    { processed := seg.length
      total_size := (seg.map SrcFile.size).sum
      files_processed := seg.map SrcFile.name
      duration := some elapsed }


theorem process_batch_eq (cfg : Cfg) (env : Env) (listing : List SrcFile)
    (db : DB) (fs : FS) (elapsed : Nat) :
    process_batch cfg env listing db fs elapsed
      = if (get_source_files listing cfg.exclude_patterns).isEmpty then (({} : Stats), db, fs)
        else if (selectFiles
            (db.get_unprocessed_files
              ((get_source_files listing cfg.exclude_patterns).map SrcFile.name))
            cfg.batch_size (get_source_files listing cfg.exclude_patterns) []).isEmpty then
          (({} : Stats), db, fs)
        else
          ({ ((selectFiles
              (db.get_unprocessed_files
                ((get_source_files listing cfg.exclude_patterns).map SrcFile.name))
              cfg.batch_size (get_source_files listing cfg.exclude_patterns) []).foldl
              (processOne cfg env) (({} : Stats), db, fs)).1 with duration := some elapsed },
           ((selectFiles
              (db.get_unprocessed_files
                ((get_source_files listing cfg.exclude_patterns).map SrcFile.name))
              cfg.batch_size (get_source_files listing cfg.exclude_patterns) []).foldl
              (processOne cfg env) (({} : Stats), db, fs)).2) := rfl

theorem names_take_disjoint_drop {l : List SrcFile} (h : (l.map SrcFile.name).Nodup)
    (m : Nat) :
    ∀ n ∈ (l.take m).map SrcFile.name, n ∉ (l.drop m).map SrcFile.name := by
  intro n hn
  obtain ⟨f, hf, rfl⟩ := List.mem_map.mp hn
  exact names_take_drop_disjoint h m f hf

theorem filter_not_mem_take (l : List SrcFile) (h : (l.map SrcFile.name).Nodup) (m : Nat) :
    (l.map SrcFile.name).filter
        (fun n => !(decide (n ∈ (l.take m).map SrcFile.name)))
      = (l.drop m).map SrcFile.name := by
  have h1 := filter_names_not_mem ((l.take m).map SrcFile.name) ((l.drop m).map SrcFile.name)
    (names_take_disjoint_drop h m)
  rw [← List.map_append, List.take_append_drop] at h1
  exact h1

theorem filter_mem_drop (l : List SrcFile) (h : (l.map SrcFile.name).Nodup) (m : Nat) :
    l.filter (fun f => decide (f.name ∈ (l.drop m).map SrcFile.name)) = l.drop m := by
  have h1 := filter_mem_names (l.take m) (l.drop m) (names_take_drop_disjoint h m)
  rw [List.take_append_drop] at h1
  exact h1

theorem run_from_prefix (cfg : Cfg) (env : Env) (listing : List SrcFile) (elapsed m : Nat)
    (hdry : cfg.dry_run = false) (hb : 1 ≤ cfg.batch_size)
    (hnd : ((get_source_files listing cfg.exclude_patterns).map SrcFile.name).Nodup)
    (hw : ∀ f ∈ get_source_files listing cfg.exclude_patterns, env.writtenSize f.path = f.size)
    (hdbf : ∀ n, env.dbInsertFails n = false) :
    process_batch cfg env listing
      (DB.mk (((get_source_files listing cfg.exclude_patterns).take m).map (mkRecord cfg env)) [])
      (FS.mk (((get_source_files listing cfg.exclude_patterns).take m).map
        (fun f => (f.name, f.size))))
      elapsed
    = (batchStats cfg listing elapsed m,
       DB.mk (((get_source_files listing cfg.exclude_patterns).take (m + cfg.batch_size)).map
         (mkRecord cfg env)) [],
       FS.mk (((get_source_files listing cfg.exclude_patterns).take (m + cfg.batch_size)).map
         (fun f => (f.name, f.size)))) := by
  by_cases hempty : (get_source_files listing cfg.exclude_patterns).isEmpty
  · have hnil : get_source_files listing cfg.exclude_patterns = [] :=
      List.isEmpty_iff.mp hempty
    simp [process_batch, batchStats, hnil]
  · have hu : (DB.mk (((get_source_files listing cfg.exclude_patterns).take m).map
          (mkRecord cfg env)) []).get_unprocessed_files
          ((get_source_files listing cfg.exclude_patterns).map SrcFile.name)
        = ((get_source_files listing cfg.exclude_patterns).drop m).map SrcFile.name := by
      unfold DB.get_unprocessed_files
      rw [List.filter_congr (fun n _ => by
        rw [is_file_processed_mkRecords cfg env
          ((get_source_files listing cfg.exclude_patterns).take m) [] n])]
      exact filter_not_mem_take _ hnd m
    have hsel : selectFiles
          (((get_source_files listing cfg.exclude_patterns).drop m).map SrcFile.name)
          cfg.batch_size (get_source_files listing cfg.exclude_patterns) []
        = ((get_source_files listing cfg.exclude_patterns).drop m).take cfg.batch_size := by
      rw [selectFiles_eq_take_filter _ _ _ [] (by simpa using hb)]
      rw [filter_mem_drop _ hnd m]
      simp
    by_cases hseg : (((get_source_files listing cfg.exclude_patterns).drop m).take
        cfg.batch_size).isEmpty
    · have hdropnil : (get_source_files listing cfg.exclude_patterns).drop m = [] := by
        rcases List.take_eq_nil_iff.mp (List.isEmpty_iff.mp hseg) with h | h
        · omega
        · exact h
      have hlen : (get_source_files listing cfg.exclude_patterns).length ≤ m :=
        List.drop_eq_nil_iff.mp hdropnil
      have htake1 : (get_source_files listing cfg.exclude_patterns).take m
          = get_source_files listing cfg.exclude_patterns := List.take_of_length_le hlen
      have htake2 : (get_source_files listing cfg.exclude_patterns).take (m + cfg.batch_size)
          = get_source_files listing cfg.exclude_patterns :=
        List.take_of_length_le (by omega)
      rw [process_batch_eq, if_neg (by simp [hempty]), hu, hsel, if_pos hseg]
      rw [batchStats]
      simp only [hseg, if_pos, htake1, htake2]
      try simp
    · have hsub : ((((get_source_files listing cfg.exclude_patterns).drop m).take
          cfg.batch_size)).Sublist (get_source_files listing cfg.exclude_patterns) :=
        (List.take_sublist _ _).trans (List.drop_sublist _ _)
      have hmemdrop : ∀ f ∈ ((get_source_files listing cfg.exclude_patterns).drop m).take
          cfg.batch_size, f ∈ (get_source_files listing cfg.exclude_patterns).drop m :=
        fun f hf => (List.take_sublist _ _).mem hf
      have hfold := foldl_processOne_clean cfg env hdry
        (((get_source_files listing cfg.exclude_patterns).drop m).take cfg.batch_size)
        {} (DB.mk (((get_source_files listing cfg.exclude_patterns).take m).map
          (mkRecord cfg env)) [])
        (FS.mk (((get_source_files listing cfg.exclude_patterns).take m).map
          (fun f => (f.name, f.size))))
        ((hsub.map SrcFile.name).nodup hnd)
        (fun f hf => by
          rw [is_file_processed_mkRecords]
          simp only [decide_eq_false_iff_not]
          exact fun hmem => names_take_disjoint_drop hnd m f.name hmem
            (List.mem_map_of_mem SrcFile.name (hmemdrop f hf)))
        (fun f hf => by
          rw [fileExists_mapped]
          simp only [decide_eq_false_iff_not]
          exact fun hmem => names_take_disjoint_drop hnd m f.name hmem
            (List.mem_map_of_mem SrcFile.name (hmemdrop f hf)))
        (fun f hf => hw f (hsub.mem hf))
        (fun f _ => hdbf f.name)
      rw [process_batch_eq, if_neg (by simp [hempty]), hu, hsel, if_neg (by simp [hseg]),
        hfold]
      have htk : (get_source_files listing cfg.exclude_patterns).take (m + cfg.batch_size)
          = (get_source_files listing cfg.exclude_patterns).take m
            ++ ((get_source_files listing cfg.exclude_patterns).drop m).take cfg.batch_size :=
        List.take_add _ _ _
      rw [batchStats]
      simp only [hseg, if_neg, Bool.not_eq_true]
      simp [htk, Stats.mk.injEq, DB.mk.injEq, FS.mk.injEq]

/-- State of the record store and the target directory after `k` successive
`process_batch` runs, starting from an empty store and an empty target. -/
def stateIter (cfg : Cfg) (env : Env) (listing : List SrcFile) (elapsed : Nat) : Nat → DB × FS
  | 0 => (DB.mk [] [], FS.mk [])
  | k + 1 =>
    (process_batch cfg env listing (stateIter cfg env listing elapsed k).1
      (stateIter cfg env listing elapsed k).2 elapsed).2

/-- Statistics reported by run number `k` (zero-based) of the iteration. -/
def statsIter (cfg : Cfg) (env : Env) (listing : List SrcFile) (elapsed : Nat) (k : Nat) :
    Stats :=
  (process_batch cfg env listing (stateIter cfg env listing elapsed k).1
    (stateIter cfg env listing elapsed k).2 elapsed).1

theorem stateIter_eq (cfg : Cfg) (env : Env) (listing : List SrcFile) (elapsed : Nat)
    (hdry : cfg.dry_run = false) (hb : 1 ≤ cfg.batch_size)
    (hnd : ((get_source_files listing cfg.exclude_patterns).map SrcFile.name).Nodup)
    (hw : ∀ f ∈ get_source_files listing cfg.exclude_patterns, env.writtenSize f.path = f.size)
    (hdbf : ∀ n, env.dbInsertFails n = false) (k : Nat) :
    stateIter cfg env listing elapsed k
      = (DB.mk (((get_source_files listing cfg.exclude_patterns).take
          (k * cfg.batch_size)).map (mkRecord cfg env)) [],
         FS.mk (((get_source_files listing cfg.exclude_patterns).take
          (k * cfg.batch_size)).map (fun f => (f.name, f.size)))) := by
  induction k with
  | zero => simp [stateIter]
  | succ n ih =>
    rw [stateIter, ih,
      run_from_prefix cfg env listing elapsed (n * cfg.batch_size) hdry hb hnd hw hdbf]
    rw [Nat.succ_mul]

theorem statsIter_eq (cfg : Cfg) (env : Env) (listing : List SrcFile) (elapsed : Nat)
    (hdry : cfg.dry_run = false) (hb : 1 ≤ cfg.batch_size)
    (hnd : ((get_source_files listing cfg.exclude_patterns).map SrcFile.name).Nodup)
    (hw : ∀ f ∈ get_source_files listing cfg.exclude_patterns, env.writtenSize f.path = f.size)
    (hdbf : ∀ n, env.dbInsertFails n = false) (k : Nat) :
    statsIter cfg env listing elapsed k = batchStats cfg listing elapsed (k * cfg.batch_size) := by
  rw [statsIter, stateIter_eq cfg env listing elapsed hdry hb hnd hw hdbf k,
    run_from_prefix cfg env listing elapsed (k * cfg.batch_size) hdry hb hnd hw hdbf]

theorem batchStats_files_processed (cfg : Cfg) (listing : List SrcFile) (elapsed m : Nat) :
    (batchStats cfg listing elapsed m).files_processed
      = (((get_source_files listing cfg.exclude_patterns).drop m).take
          cfg.batch_size).map SrcFile.name := by
  rw [batchStats]
  by_cases h : (((get_source_files listing cfg.exclude_patterns).drop m).take
      cfg.batch_size).isEmpty
  · rw [if_pos h]
    rw [List.isEmpty_iff.mp h]
    rfl
  · rw [if_neg h]

theorem batchStats_processed (cfg : Cfg) (listing : List SrcFile) (elapsed m : Nat) :
    (batchStats cfg listing elapsed m).processed
      = (((get_source_files listing cfg.exclude_patterns).drop m).take
          cfg.batch_size).length := by
  rw [batchStats]
  by_cases h : (((get_source_files listing cfg.exclude_patterns).drop m).take
      cfg.batch_size).isEmpty
  · rw [if_pos h]
    rw [List.isEmpty_iff.mp h]
    rfl
  · rw [if_neg h]

theorem flatMap_take_segments {α : Type} (l : List α) (b : Nat) (j : Nat) :
    (List.range j).flatMap (fun k => (l.drop (k * b)).take b) = l.take (j * b) := by
  induction j with
  | zero => simp
  | succ n ih =>
    rw [List.range_succ, List.flatMap_append, ih]
    simp only [List.flatMap_cons, List.flatMap_nil, List.append_nil]
    rw [Nat.succ_mul, List.take_add]

/-! Concrete fixtures used by witnesses and counterexamples. -/

/-- A source listing with two files in different subdirectories that share
the base filename `x.txt` (a recursive enumeration can produce this). -/
def listingDupX : List SrcFile :=
  [SrcFile.mk "a/x.txt" "x.txt" 1, SrcFile.mk "b/x.txt" "x.txt" 1]

/-- A faithful environment: every copy writes one byte for these one-byte
files, storage never fails, hashing yields nothing. -/
def envX : Env := Env.mk (fun _ => 1) (fun _ => false) (fun _ => none)

/-- A real-mode configuration with batch size 10 and no exclusions. -/
def cfgX : Cfg := Cfg.mk 10 false [] false

/-- The spec's scenario listing: `a.txt`, `b.jpg`, `c.tmp` (all one byte),
in discovery order `b.jpg`, `a.txt`, `c.tmp`. -/
def listingW : List SrcFile :=
  [SrcFile.mk "src/b.jpg" "b.jpg" 1, SrcFile.mk "src/a.txt" "a.txt" 1,
   SrcFile.mk "src/c.tmp" "c.tmp" 1]

/-- A real-mode configuration with batch size 1 excluding `*.tmp`. -/
def cfgW : Cfg := Cfg.mk 1 false ["*.tmp"] false

/-- C1, counterexample: with the source files `a/x.txt` and `b/x.txt` (same
base filename, distinct files, neither excluded), the first run processes
only one of them and skips the other, the state after the first run is a
fixed point of `process_batch`, and every later run reports `processed = 0`;
hence `b/x.txt` is never processed, contradicting the claim that every
non-excluded source file is processed exactly once in total. -/
theorem C1_counterexample :
    (statsIter cfgX envX listingDupX 0 0).files_processed = ["x.txt"]
      ∧ (statsIter cfgX envX listingDupX 0 0).skipped = 1
      ∧ (statsIter cfgX envX listingDupX 0 1).processed = 0
      ∧ stateIter cfgX envX listingDupX 0 2 = stateIter cfgX envX listingDupX 0 1 := by
  refine ⟨by decide, by decide, by decide, by decide⟩

/-- C1 (amended): for every source directory whose contents do not change
and whose non-excluded files have pairwise distinct base filenames, every
exclude-pattern list and every batch size at least 1, repeatedly calling
`process_batch` in real mode from an empty record store and empty target
(with faithful copies and no storage failures) processes each non-excluded
source file exactly once in total, and once all non-excluded files are
processed every further call returns a result with `processed = 0`. -/
theorem C1_idempotence_amended (cfg : Cfg) (env : Env) (listing : List SrcFile)
    (elapsed : Nat)
    (hdry : cfg.dry_run = false) (hb : 1 ≤ cfg.batch_size)
    (hnd : (listing.map SrcFile.name).Nodup)
    (hw : ∀ f ∈ listing, env.writtenSize f.path = f.size)
    (hdbf : ∀ n, env.dbInsertFails n = false)
    (j : Nat) (hj : (get_source_files listing cfg.exclude_patterns).length ≤ j) :
    (∀ f ∈ listing, is_excluded cfg.exclude_patterns f.name = false →
      ((List.range j).flatMap
        (fun k => (statsIter cfg env listing elapsed k).files_processed)).count f.name = 1)
    ∧ (statsIter cfg env listing elapsed j).processed = 0 := by
  have hnd' := get_source_files_nodup listing cfg.exclude_patterns hnd
  have hw' : ∀ f ∈ get_source_files listing cfg.exclude_patterns,
      env.writtenSize f.path = f.size :=
    fun f hf => hw f ((get_source_files_mem listing cfg.exclude_patterns f).mp hf).1
  have hjb : (get_source_files listing cfg.exclude_patterns).length ≤ j * cfg.batch_size :=
    le_trans hj (Nat.le_mul_of_pos_right j (by omega))
  constructor
  · intro f hf hex
    have hflat : (List.range j).flatMap
          (fun k => (statsIter cfg env listing elapsed k).files_processed)
        = (get_source_files listing cfg.exclude_patterns).map SrcFile.name := by
      have hcomp : (fun k => (statsIter cfg env listing elapsed k).files_processed)
          = (fun k => (((get_source_files listing cfg.exclude_patterns).drop
              (k * cfg.batch_size)).take cfg.batch_size).map SrcFile.name) := by
        funext k
        rw [statsIter_eq cfg env listing elapsed hdry hb hnd' hw' hdbf k,
          batchStats_files_processed]
      rw [hcomp, ← List.map_flatMap, flatMap_take_segments, List.take_of_length_le hjb]
    rw [hflat]
    exact List.count_eq_one_of_mem hnd'
      (List.mem_map_of_mem SrcFile.name
        ((get_source_files_mem listing cfg.exclude_patterns f).mpr ⟨hf, hex⟩))
  · rw [statsIter_eq cfg env listing elapsed hdry hb hnd' hw' hdbf j, batchStats_processed,
      List.drop_eq_nil_of_le hjb]
    simp

/-- C1, witness: on the scenario source (`a.txt`, `b.jpg`, `c.tmp` with
`*.tmp` excluded), with batch size 1, after two runs every further run
reports `processed = 0`. -/
theorem C1_witness : (statsIter cfgW envX listingW 5 2).processed = 0 :=
  (C1_idempotence_amended cfgW envX listingW 5 rfl (by decide) (by decide)
    (by decide) (fun _ => rfl) 2 (by decide)).2

/-! Preservation of the filename-uniqueness invariant of the record store. -/

theorem add_processed_file_nodup (db : DB) (env : Env) (r : FRecord) (db' : DB)
    (h : db.add_processed_file env r = .ok db')
    (hnd : (db.records.map FRecord.filename).Nodup) :
    (db'.records.map FRecord.filename).Nodup := by
  unfold DB.add_processed_file at h
  by_cases h1 : env.dbInsertFails r.filename
  · simp [h1] at h
  · by_cases h2 : db.records.any (fun q => q.filename = r.filename)
    · simp [h1, h2] at h
    · simp only [h1, h2, Bool.false_eq_true, if_false, Except.ok.injEq] at h
      subst h
      simp only [List.map_append, List.map_cons, List.map_nil]
      rw [List.nodup_append]
      refine ⟨hnd, List.nodup_singleton _, ?_⟩
      intro n hn hn1
      simp only [List.mem_singleton] at hn1
      subst hn1
      obtain ⟨q, hq, hqn⟩ := List.mem_map.mp hn
      have h2' : ∀ x ∈ db.records, ¬ x.filename = r.filename := by simpa using h2
      exact h2' q hq hqn

theorem processOne_records_nodup (cfg : Cfg) (env : Env) (st : PState) (f : SrcFile)
    (h : ((st.2.1).records.map FRecord.filename).Nodup) :
    (((processOne cfg env st f).2.1).records.map FRecord.filename).Nodup := by
  obtain ⟨stats, db, fs⟩ := st
  simp only [processOne]
  by_cases h1 : db.is_file_processed f.name = true
  · simpa [h1] using h
  · simp only [h1, if_false, Bool.false_eq_true]
    by_cases h2 : (copy_file cfg env fs f f.name).1.1 = false
    · by_cases h3 : cfg.dry_run = true
      · simpa [h2, h3] using h
      · simpa [h2, h3, DB.log_error] using h
    · simp only [h2, if_false]
      by_cases h3 : cfg.dry_run = true
      · simpa [h3] using h
      · simp only [h3, if_false, Bool.false_eq_true]
        cases hadd : db.add_processed_file env (mkRecord cfg env f) with
        | ok db1 => simpa using add_processed_file_nodup db env (mkRecord cfg env f) db1 hadd h
        | error e => simpa [DB.log_error] using h

theorem foldl_processOne_records_nodup (cfg : Cfg) (env : Env) (L : List SrcFile) :
    ∀ st : PState, ((st.2.1).records.map FRecord.filename).Nodup →
      (((L.foldl (processOne cfg env) st).2.1).records.map FRecord.filename).Nodup := by
  induction L with
  | nil => intro st h; simpa using h
  | cons f rest ih =>
    intro st h
    rw [List.foldl_cons]
    exact ih _ (processOne_records_nodup cfg env st f h)

theorem process_batch_records_nodup (cfg : Cfg) (env : Env) (listing : List SrcFile)
    (db : DB) (fs : FS) (elapsed : Nat)
    (h : (db.records.map FRecord.filename).Nodup) :
    (((process_batch cfg env listing db fs elapsed).2.1).records.map FRecord.filename).Nodup := by
  rw [process_batch_eq]
  by_cases h1 : (get_source_files listing cfg.exclude_patterns).isEmpty = true
  · simpa [h1] using h
  · simp only [h1, if_false, Bool.false_eq_true]
    by_cases h2 : (selectFiles
        (db.get_unprocessed_files
          ((get_source_files listing cfg.exclude_patterns).map SrcFile.name))
        cfg.batch_size (get_source_files listing cfg.exclude_patterns) []).isEmpty = true
    · simpa [h2] using h
    · simp only [h2, if_false, Bool.false_eq_true]
      exact foldl_processOne_records_nodup cfg env _ (({} : Stats), db, fs) (by simpa using h)

theorem applyOp_records_nodup (s : DB × FS) (op : Op)
    (h : (s.1.records.map FRecord.filename).Nodup) :
    (((applyOp s op).1.records.map FRecord.filename)).Nodup := by
  obtain ⟨db, fs⟩ := s
  cases op with
  | batch cfg env listing elapsed =>
    exact process_batch_records_nodup cfg env listing db fs elapsed h
  | add env r =>
    simp only [applyOp]
    cases hadd : db.add_processed_file env r with
    | ok db1 => simpa using add_processed_file_nodup db env r db1 hadd h
    | error e => simpa using h
  | logErr f t m => simpa [applyOp, DB.log_error] using h
  | clean dry => simpa [applyOp] using h

/-- C2: for every filename, after any sequence of operations (batch runs,
re-runs, duplicate insertion attempts, error logging, orphan cleaning) the
`processed_files` filenames are pairwise distinct — at most one record per
filename — and `add_processed_file` fails rather than inserting a record
for a filename that is already present. -/
theorem C2_uniqueness :
    (∀ ops : List Op, ((replay ops).1.records.map FRecord.filename).Nodup)
      ∧ (∀ (db : DB) (env : Env) (r : FRecord),
          db.is_file_processed r.filename = true →
          exceptIsOk (db.add_processed_file env r) = false) := by
  constructor
  · intro ops
    have : ∀ s : DB × FS, (s.1.records.map FRecord.filename).Nodup →
        (((ops.foldl applyOp s).1.records.map FRecord.filename)).Nodup := by
      induction ops with
      | nil => intro s h; simpa using h
      | cons op rest ih =>
        intro s h
        rw [List.foldl_cons]
        exact ih _ (applyOp_records_nodup s op h)
    exact this (DB.mk [] [], FS.mk []) (by simp)
  · intro db env r h
    rcases add_processed_file_dup db env r h with h1 | h1 <;> simp [h1, exceptIsOk]

/-- C2, witness: two consecutive insertion attempts for the same filename
leave a store with pairwise-distinct filenames, and a direct duplicate
insert against a store already holding `x.txt` is rejected. -/
theorem C2_witness :
    ((replay [Op.add envX (FRecord.mk "x.txt" "a/x.txt" "x.txt" 1 none),
              Op.add envX (FRecord.mk "x.txt" "b/x.txt" "x.txt" 1 none)]).1.records.map
        FRecord.filename).Nodup
      ∧ exceptIsOk ((DB.mk [FRecord.mk "x.txt" "a/x.txt" "x.txt" 1 none] []).add_processed_file
          envX (FRecord.mk "x.txt" "b/x.txt" "x.txt" 1 none)) = false :=
  ⟨C2_uniqueness.1 [Op.add envX (FRecord.mk "x.txt" "a/x.txt" "x.txt" 1 none),
      Op.add envX (FRecord.mk "x.txt" "b/x.txt" "x.txt" 1 none)],
   C2_uniqueness.2 (DB.mk [FRecord.mk "x.txt" "a/x.txt" "x.txt" 1 none] []) envX
      (FRecord.mk "x.txt" "b/x.txt" "x.txt" 1 none) (by decide)⟩

/-! Lemmas for size verification and rollback. -/

theorem copy_file_success_real (cfg : Cfg) (env : Env) (fs : FS) (f : SrcFile) (n : String)
    (hdry : cfg.dry_run = false) (h : (copy_file cfg env fs f n).1.1 = true) :
    fs.fileExists n = false ∧ env.writtenSize f.path = f.size := by
  unfold copy_file at h
  by_cases h1 : fs.fileExists n = true
  · simp [h1] at h
  · have h1' : fs.fileExists n = false := by simpa using h1
    by_cases h2 : f.size = env.writtenSize f.path
    · exact ⟨h1', h2.symm⟩
    · simp [h1', hdry, h2] at h

theorem processOne_filter_source_path (cfg : Cfg) (env : Env) (hdry : cfg.dry_run = false)
    (st : PState) (f : SrcFile) (p : String)
    (hf : f.path = p → env.writtenSize f.path ≠ f.size) :
    ((processOne cfg env st f).2.1).records.filter (fun r => decide (r.source_path = p))
      = (st.2.1).records.filter (fun r => decide (r.source_path = p)) := by
  obtain ⟨stats, db, fs⟩ := st
  simp only [processOne]
  by_cases h1 : db.is_file_processed f.name = true
  · simp [h1]
  · simp only [h1, if_false, Bool.false_eq_true]
    by_cases h2 : (copy_file cfg env fs f f.name).1.1 = false
    · by_cases h3 : cfg.dry_run = true
      · simp [h2, h3]
      · simp [h2, h3, DB.log_error]
    · have hsucc : (copy_file cfg env fs f f.name).1.1 = true := by
        simpa using h2
      have hgood := (copy_file_success_real cfg env fs f f.name hdry hsucc).2
      have hne : ¬ f.path = p := fun hp => hf hp hgood
      simp only [h2, if_false, hdry, Bool.false_eq_true, if_false]
      cases hadd : db.add_processed_file env (mkRecord cfg env f) with
      | ok db1 =>
        have : db1.records = db.records ++ [mkRecord cfg env f] := by
          unfold DB.add_processed_file at hadd
          by_cases ha : env.dbInsertFails (mkRecord cfg env f).filename
          · simp [ha] at hadd
          · by_cases hb : db.records.any
                (fun q => q.filename = (mkRecord cfg env f).filename)
            · simp [ha, hb] at hadd
            · simp only [ha, hb, Bool.false_eq_true, if_false, Except.ok.injEq] at hadd
              rw [← hadd]
        have hnil : List.filter (fun r => decide (r.source_path = p))
            [mkRecord cfg env f] = [] := by
          simp [mkRecord, hne]
        simp only [Bool.true_eq_false, if_false, this, List.filter_append, hnil,
          List.append_nil]
      | error e => simp [DB.log_error]

theorem foldl_processOne_filter_source_path (cfg : Cfg) (env : Env)
    (hdry : cfg.dry_run = false) (p : String) (L : List SrcFile)
    (hL : ∀ g ∈ L, g.path = p → env.writtenSize g.path ≠ g.size) :
    ∀ st : PState,
      ((L.foldl (processOne cfg env) st).2.1).records.filter
          (fun r => decide (r.source_path = p))
        = (st.2.1).records.filter (fun r => decide (r.source_path = p)) := by
  induction L with
  | nil => intro st; simp
  | cons f rest ih =>
    intro st
    rw [List.foldl_cons,
      ih (fun g hg => hL g (by simp [hg])) (processOne cfg env st f),
      processOne_filter_source_path cfg env hdry st f p (hL f (by simp))]

/-- C3: if, after the bytes are copied, the target byte count differs from
the source byte count, the copy operation deletes the just-written target
file and reports failure (leaving the target directory as it was), and no
ProcessedFileRecord for that source file is ever created by that
`process_batch` run. -/
theorem C3_size_verification (cfg : Cfg) (env : Env) (listing : List SrcFile)
    (db : DB) (fs : FS) (elapsed : Nat) (f : SrcFile)
    (hdry : cfg.dry_run = false)
    (hmem : f ∈ listing)
    (hpaths : (listing.map SrcFile.path).Nodup)
    (hbad : env.writtenSize f.path ≠ f.size) :
    (∀ fs' : FS, fs'.fileExists f.name = false →
      copy_file cfg env fs' f f.name = ((false, some "Incorrect size after copy"), fs'))
    ∧ ((process_batch cfg env listing db fs elapsed).2.1).records.filter
        (fun r => decide (r.source_path = f.path))
      = db.records.filter (fun r => decide (r.source_path = f.path)) := by
  constructor
  · intro fs' hfs
    unfold copy_file
    rw [if_neg (by simp [hfs]), if_neg (by simp [hdry])]
    rw [if_neg (fun hs => hbad hs.symm)]
    rw [unlink_write_of_not_exists fs' f.name (env.writtenSize f.path) hfs]
  · have hL : ∀ g ∈ get_source_files listing cfg.exclude_patterns,
        g.path = f.path → env.writtenSize g.path ≠ g.size := by
      intro g hg hp
      have hgmem : g ∈ listing := ((get_source_files_mem listing cfg.exclude_patterns g).mp hg).1
      have : g = f := List.inj_on_of_nodup_map hpaths hgmem hmem hp
      subst this
      rw [hp]
      rw [hp] at hbad
      exact hbad
    rw [process_batch_eq]
    by_cases h1 : (get_source_files listing cfg.exclude_patterns).isEmpty = true
    · simp [h1]
    · simp only [h1, if_false, Bool.false_eq_true]
      by_cases h2 : (selectFiles
          (db.get_unprocessed_files
            ((get_source_files listing cfg.exclude_patterns).map SrcFile.name))
          cfg.batch_size (get_source_files listing cfg.exclude_patterns) []).isEmpty = true
      · simp [h2]
      · simp only [h2, if_false, Bool.false_eq_true]
        obtain ⟨s, hs, hsub⟩ := selectFiles_split
          (db.get_unprocessed_files
            ((get_source_files listing cfg.exclude_patterns).map SrcFile.name))
          cfg.batch_size (get_source_files listing cfg.exclude_patterns) []
        rw [hs] at h2 ⊢
        simp only [List.nil_append] at h2 ⊢
        exact foldl_processOne_filter_source_path cfg env hdry f.path s
          (fun g hg => hL g (hsub.mem hg)) (({} : Stats), db, fs)

/-- C3, witness: a one-file source whose copy writes 4 bytes instead of 5;
after the batch no record with that source path exists. -/
theorem C3_witness :
    ((process_batch (Cfg.mk 10 false [] false) (Env.mk (fun _ => 4) (fun _ => false)
          (fun _ => none)) [SrcFile.mk "s/a.txt" "a.txt" 5] (DB.mk [] []) (FS.mk [])
        0).2.1).records.filter (fun r => decide (r.source_path = "s/a.txt"))
      = (DB.mk [] []).records.filter (fun r => decide (r.source_path = "s/a.txt")) :=
  (C3_size_verification (Cfg.mk 10 false [] false)
    (Env.mk (fun _ => 4) (fun _ => false) (fun _ => none))
    [SrcFile.mk "s/a.txt" "a.txt" 5] (DB.mk [] []) (FS.mk []) 0
    (SrcFile.mk "s/a.txt" "a.txt" 5) rfl (by decide) (by decide) (by decide)).2

/-- C4: if inserting the ProcessedFileRecord fails after a successful copy,
the per-file step deletes the just-copied target file (the target directory
comes back unchanged), logs the failure under the distinct `DB_ERROR`
category, counts the file as an error — the processed count, the record
table and the processed-names list are untouched — and the batch loop
continues with the next file. -/
theorem C4_db_error_rollback (cfg : Cfg) (env : Env) (stats : Stats) (db : DB) (fs : FS)
    (f : SrcFile) (rest : List SrcFile)
    (hdry : cfg.dry_run = false)
    (hnp : db.is_file_processed f.name = false)
    (hnx : fs.fileExists f.name = false)
    (hsz : env.writtenSize f.path = f.size)
    (hfail : env.dbInsertFails f.name = true) :
    processOne cfg env (stats, db, fs) f
      = ({ stats with
            errors := stats.errors + 1
            files_errors := stats.files_errors ++ [(f.name, "StorageError")] },
         { db with errors := db.errors ++ [(f.name, "DB_ERROR", "StorageError")] },
         fs)
    ∧ (f :: rest).foldl (processOne cfg env) (stats, db, fs)
      = rest.foldl (processOne cfg env) (processOne cfg env (stats, db, fs) f) := by
  refine ⟨?_, rfl⟩
  have hadd : db.add_processed_file env (mkRecord cfg env f) = .error "StorageError" := by
    unfold DB.add_processed_file
    rw [if_pos (by simpa [mkRecord] using hfail)]
  have hcopy : copy_file cfg env fs f f.name = ((true, none), fs.write f.name f.size) := by
    unfold copy_file
    rw [if_neg (by simp [hnx]), if_neg (by simp [hdry]), hsz, if_pos rfl]
  simp only [processOne, hnp, Bool.false_eq_true, if_false, hcopy, hadd]
  rw [if_neg (by simp), if_neg (by simp [hdry])]
  rw [if_pos (by simp [fileExists_write])]
  rw [unlink_write_of_not_exists fs f.name f.size hnx]
  rfl

/-- C4, witness: a one-byte file whose copy succeeds but whose record insert
fails at the storage layer; the step reports one error, keeps the store's
records unchanged, logs a `DB_ERROR` row, and hands back the original
target directory. -/
theorem C4_witness :
    processOne (Cfg.mk 10 false [] false) (Env.mk (fun _ => 1) (fun _ => true) (fun _ => none))
        (({} : Stats), DB.mk [] [], FS.mk []) (SrcFile.mk "s/a.txt" "a.txt" 1)
      = ({ ({} : Stats) with
            errors := ({} : Stats).errors + 1
            files_errors := ({} : Stats).files_errors ++ [("a.txt", "StorageError")] },
         { DB.mk [] [] with errors := (DB.mk [] []).errors
            ++ [("a.txt", "DB_ERROR", "StorageError")] },
         FS.mk [])
    ∧ ([SrcFile.mk "s/a.txt" "a.txt" 1]).foldl
          (processOne (Cfg.mk 10 false [] false)
            (Env.mk (fun _ => 1) (fun _ => true) (fun _ => none)))
          (({} : Stats), DB.mk [] [], FS.mk [])
      = ([] : List SrcFile).foldl
          (processOne (Cfg.mk 10 false [] false)
            (Env.mk (fun _ => 1) (fun _ => true) (fun _ => none)))
          (processOne (Cfg.mk 10 false [] false)
            (Env.mk (fun _ => 1) (fun _ => true) (fun _ => none))
            (({} : Stats), DB.mk [] [], FS.mk []) (SrcFile.mk "s/a.txt" "a.txt" 1)) :=
  C4_db_error_rollback (Cfg.mk 10 false [] false)
    (Env.mk (fun _ => 1) (fun _ => true) (fun _ => none)) {} (DB.mk [] []) (FS.mk [])
    (SrcFile.mk "s/a.txt" "a.txt" 1) [] rfl (by decide) (by decide) rfl rfl

theorem is_file_processed_append_record (db : DB) (r : FRecord) (n : String) :
    ({ db with records := db.records ++ [r] } : DB).is_file_processed n
      = (db.is_file_processed n || r.filename = n) := by
  simp [DB.is_file_processed, List.any_append]

/-! Simulation argument: a dry run and a real run from matching states make
the same per-file decisions, so they report the same processed count, while
the dry run leaves the store and the target directory untouched. -/

theorem foldl_dry_real_sim (cfg : Cfg) (env : Env) (L : List SrcFile) :
    ∀ (sD : Stats) (dbD : DB) (fsD : FS) (sR : Stats) (dbR : DB) (fsR : FS),
      (L.map SrcFile.name).Nodup →
      (∀ f ∈ L, env.writtenSize f.path = f.size) →
      (∀ f ∈ L, env.dbInsertFails f.name = false) →
      (∀ f ∈ L, dbR.is_file_processed f.name = dbD.is_file_processed f.name) →
      (∀ f ∈ L, fsR.fileExists f.name = fsD.fileExists f.name) →
      (L.foldl (processOne { cfg with dry_run := true } env) (sD, dbD, fsD)).2 = (dbD, fsD)
      ∧ ∃ N,
        (L.foldl (processOne { cfg with dry_run := true } env) (sD, dbD, fsD)).1.processed
          = sD.processed + N
        ∧ (L.foldl (processOne { cfg with dry_run := false } env) (sR, dbR, fsR)).1.processed
          = sR.processed + N := by
  induction L with
  | nil =>
    intro sD dbD fsD sR dbR fsR _ _ _ _ _
    exact ⟨rfl, 0, rfl, rfl⟩
  | cons f rest ih =>
    intro sD dbD fsD sR dbR fsR hnd hw hdbf hdb hfs
    have hndr : (rest.map SrcFile.name).Nodup := by
      simp only [List.map_cons, List.nodup_cons] at hnd
      exact hnd.2
    have hfname : f.name ∉ rest.map SrcFile.name := by
      simp only [List.map_cons, List.nodup_cons] at hnd
      exact hnd.1
    have hdbf1 : env.dbInsertFails f.name = false := hdbf f (by simp)
    have hw1 : env.writtenSize f.path = f.size := hw f (by simp)
    have hdb1 := hdb f (by simp)
    have hfs1 := hfs f (by simp)
    by_cases hA : dbD.is_file_processed f.name = true
    · have hdstep : processOne { cfg with dry_run := true } env (sD, dbD, fsD) f
          = ({ sD with
               skipped := sD.skipped + 1
               files_skipped := sD.files_skipped ++ [f.name] }, dbD, fsD) := by
        simp [processOne, hA]
      have hrstep : processOne { cfg with dry_run := false } env (sR, dbR, fsR) f
          = ({ sR with
               skipped := sR.skipped + 1
               files_skipped := sR.files_skipped ++ [f.name] }, dbR, fsR) := by
        simp [processOne, hdb1.trans hA]
      rw [List.foldl_cons, List.foldl_cons, hdstep, hrstep]
      exact ih ({ sD with
          skipped := sD.skipped + 1
          files_skipped := sD.files_skipped ++ [f.name] }) dbD fsD
        ({ sR with
          skipped := sR.skipped + 1
          files_skipped := sR.files_skipped ++ [f.name] }) dbR fsR
        hndr (fun g hg => hw g (by simp [hg])) (fun g hg => hdbf g (by simp [hg]))
        (fun g hg => hdb g (by simp [hg])) (fun g hg => hfs g (by simp [hg]))
    · have hA' : dbD.is_file_processed f.name = false := by simpa using hA
      have hRA : dbR.is_file_processed f.name = false := hdb1.trans hA'
      by_cases hE : fsD.fileExists f.name = true
      · have hRE : fsR.fileExists f.name = true := hfs1.trans hE
        have hdstep : processOne { cfg with dry_run := true } env (sD, dbD, fsD) f
            = ({ sD with
               errors := sD.errors + 1
               files_errors := sD.files_errors
                 ++ [(f.name, "File already exists in target")] }, dbD, fsD) := by
          simp [processOne, hA', copy_file, hE]
        have hrstep : processOne { cfg with dry_run := false } env (sR, dbR, fsR) f
            = ({ sR with
               errors := sR.errors + 1
               files_errors := sR.files_errors
                 ++ [(f.name, "File already exists in target")] },
               dbR.log_error f.name "COPY_ERROR" "File already exists in target", fsR) := by
          simp [processOne, hRA, copy_file, hRE]
        rw [List.foldl_cons, List.foldl_cons, hdstep, hrstep]
        exact ih ({ sD with
            errors := sD.errors + 1
            files_errors := sD.files_errors
              ++ [(f.name, "File already exists in target")] }) dbD fsD
          ({ sR with
            errors := sR.errors + 1
            files_errors := sR.files_errors
              ++ [(f.name, "File already exists in target")] })
          (dbR.log_error f.name "COPY_ERROR" "File already exists in target") fsR
          hndr (fun g hg => hw g (by simp [hg])) (fun g hg => hdbf g (by simp [hg]))
          (fun g hg => (log_error_is_file_processed dbR f.name "COPY_ERROR"
            "File already exists in target" g.name).trans (hdb g (by simp [hg])))
          (fun g hg => hfs g (by simp [hg]))
      · have hE' : fsD.fileExists f.name = false := by simpa using hE
        have hRE : fsR.fileExists f.name = false := hfs1.trans hE'
        have hdstep : processOne { cfg with dry_run := true } env (sD, dbD, fsD) f
            = ({ sD with
               processed := sD.processed + 1
               total_size := sD.total_size + f.size
               files_processed := sD.files_processed ++ [f.name] }, dbD, fsD) := by
          simp [processOne, hA', copy_file, hE']
        have hadd := add_processed_file_ok dbR env (mkRecord { cfg with dry_run := false } env f)
          (by simpa [mkRecord] using hdbf1) (by simpa [mkRecord] using hRA)
        have hrstep : processOne { cfg with dry_run := false } env (sR, dbR, fsR) f
            = ({ sR with
               processed := sR.processed + 1
               total_size := sR.total_size + f.size
               files_processed := sR.files_processed ++ [f.name] },
               { dbR with records := dbR.records
                  ++ [mkRecord { cfg with dry_run := false } env f] },
               fsR.write f.name f.size) := by
          simp [processOne, hRA, copy_file, hRE, hw1, hadd]
        rw [List.foldl_cons, List.foldl_cons, hdstep, hrstep]
        obtain ⟨hst, N, hdN, hrN⟩ := ih
          ({ sD with
             processed := sD.processed + 1
             total_size := sD.total_size + f.size
             files_processed := sD.files_processed ++ [f.name] }) dbD fsD
          ({ sR with
             processed := sR.processed + 1
             total_size := sR.total_size + f.size
             files_processed := sR.files_processed ++ [f.name] })
          ({ dbR with records := dbR.records
             ++ [mkRecord { cfg with dry_run := false } env f] })
          (fsR.write f.name f.size)
          hndr (fun g hg => hw g (by simp [hg])) (fun g hg => hdbf g (by simp [hg]))
          (fun g hg => by
            have hne : ¬ f.name = g.name :=
              fun hcon => hfname (hcon ▸ List.mem_map_of_mem SrcFile.name hg)
            rw [is_file_processed_append_record]
            have h2 : decide ((mkRecord { cfg with dry_run := false } env f).filename
                = g.name) = false := by
              simp only [mkRecord, decide_eq_false_iff_not]
              exact hne
            rw [h2, Bool.or_false]
            exact hdb g (by simp [hg]))
          (fun g hg => by
            have hne : ¬ f.name = g.name :=
              fun hcon => hfname (hcon ▸ List.mem_map_of_mem SrcFile.name hg)
            rw [fileExists_write]
            have h2 : decide (f.name = g.name) = false := by
              simp only [decide_eq_false_iff_not]
              exact hne
            rw [h2, Bool.or_false]
            exact hfs g (by simp [hg]))
        refine ⟨hst, N + 1, ?_, ?_⟩
        · rw [hdN]
          show sD.processed + 1 + N = sD.processed + (N + 1)
          omega
        · rw [hrN]
          show sR.processed + 1 + N = sR.processed + (N + 1)
          omega

/-- C5, counterexample: with the source files `a/x.txt` and `b/x.txt` (same
base filename) and an empty store and target, a dry run reports
`processed = 2` while the corresponding real-mode run reports
`processed = 1` (the second file is skipped once the first is recorded),
so the dry-run processed count does not match what real mode would have
successfully copied. -/
theorem C5_counterexample :
    (process_batch (Cfg.mk 10 false [] true) envX listingDupX (DB.mk [] []) (FS.mk [])
        0).1.processed = 2
      ∧ (process_batch (Cfg.mk 10 false [] false) envX listingDupX (DB.mk [] []) (FS.mk [])
        0).1.processed = 1 :=
  ⟨by decide, by decide⟩

/-- Unconditional effect of a dry-run copy: the filesystem is untouched,
whether the copy is refused (target already present) or short-circuits as a
success. -/
theorem copy_file_dry_fs (cfg : Cfg) (env : Env) (fs : FS) (f : SrcFile) (n : String)
    (hdry : cfg.dry_run = true) : (copy_file cfg env fs f n).2 = fs := by
  unfold copy_file
  by_cases h : fs.fileExists n = true
  · simp [h]
  · simp [h, hdry]

theorem processOne_dry_state (cfg : Cfg) (env : Env) (hdry : cfg.dry_run = true)
    (st : PState) (f : SrcFile) : (processOne cfg env st f).2 = st.2 := by
  obtain ⟨stats, db, fs⟩ := st
  simp only [processOne]
  by_cases h1 : db.is_file_processed f.name = true
  · simp [h1]
  · simp only [h1, if_false, Bool.false_eq_true]
    by_cases h2 : (copy_file cfg env fs f f.name).1.1 = false
    · simp [h2, hdry, copy_file_dry_fs cfg env fs f f.name hdry]
    · simp [h2, Bool.true_eq_false, hdry, copy_file_dry_fs cfg env fs f f.name hdry]

theorem foldl_processOne_dry_state (cfg : Cfg) (env : Env) (hdry : cfg.dry_run = true)
    (L : List SrcFile) : ∀ st : PState, (L.foldl (processOne cfg env) st).2 = st.2 := by
  induction L with
  | nil => intro st; rfl
  | cons f rest ih =>
    intro st
    rw [List.foldl_cons, ih (processOne cfg env st f), processOne_dry_state cfg env hdry st f]

theorem process_batch_dry_state (cfg : Cfg) (env : Env) (listing : List SrcFile)
    (db : DB) (fs : FS) (elapsed : Nat) (hdry : cfg.dry_run = true) :
    (process_batch cfg env listing db fs elapsed).2 = (db, fs) := by
  rw [process_batch_eq]
  by_cases h1 : (get_source_files listing cfg.exclude_patterns).isEmpty = true
  · simp [h1]
  · simp only [h1, if_false, Bool.false_eq_true]
    by_cases h2 : (selectFiles
        (db.get_unprocessed_files
          ((get_source_files listing cfg.exclude_patterns).map SrcFile.name))
        cfg.batch_size (get_source_files listing cfg.exclude_patterns) []).isEmpty = true
    · simp [h2]
    · simp only [h2, if_false, Bool.false_eq_true]
      exact foldl_processOne_dry_state cfg env hdry _ (({} : Stats), db, fs)

/-- C5 (amended): with simulation mode enabled, `process_batch`
unconditionally creates no file and deletes no file in the target directory
and writes no processed-file record and no error entry to the record store;
and, provided the source files have pairwise distinct base filenames,
copies are faithful, and storage accepts every insert, the reported
processed count equals the processed count of the corresponding real-mode
run from the same state. -/
theorem C5_dry_run_purity_amended (cfg : Cfg) (env : Env) (listing : List SrcFile)
    (db : DB) (fs : FS) (elapsed : Nat) :
    (process_batch { cfg with dry_run := true } env listing db fs elapsed).2 = (db, fs)
    ∧ ((listing.map SrcFile.name).Nodup →
        (∀ f ∈ listing, env.writtenSize f.path = f.size) →
        (∀ n, env.dbInsertFails n = false) →
        (process_batch { cfg with dry_run := true } env listing db fs elapsed).1.processed
          = (process_batch { cfg with dry_run := false } env listing db fs
              elapsed).1.processed) := by
  constructor
  · exact process_batch_dry_state { cfg with dry_run := true } env listing db fs elapsed rfl
  · intro hnd hw hdbf
    rw [process_batch_eq, process_batch_eq]
    simp only
    by_cases h1 : (get_source_files listing cfg.exclude_patterns).isEmpty = true
    · simp [h1]
    · simp only [h1, if_false, Bool.false_eq_true]
      by_cases h2 : (selectFiles
          (db.get_unprocessed_files
            ((get_source_files listing cfg.exclude_patterns).map SrcFile.name))
          cfg.batch_size (get_source_files listing cfg.exclude_patterns) []).isEmpty = true
      · simp [h2]
      · simp only [h2, if_false, Bool.false_eq_true]
        obtain ⟨s, hs, hsub⟩ := selectFiles_split
          (db.get_unprocessed_files
            ((get_source_files listing cfg.exclude_patterns).map SrcFile.name))
          cfg.batch_size (get_source_files listing cfg.exclude_patterns) []
        rw [hs]
        simp only [List.nil_append]
        have hsnd : (s.map SrcFile.name).Nodup :=
          (hsub.map SrcFile.name).nodup
            (get_source_files_nodup listing cfg.exclude_patterns hnd)
        have hsw : ∀ f ∈ s, env.writtenSize f.path = f.size :=
          fun f hf => hw f
            ((get_source_files_mem listing cfg.exclude_patterns f).mp (hsub.mem hf)).1
        obtain ⟨hst, N, hdN, hrN⟩ := foldl_dry_real_sim cfg env s {} db fs {} db fs
          hsnd hsw (fun f _ => hdbf f.name) (fun f _ => rfl) (fun f _ => rfl)
        show (s.foldl (processOne { cfg with dry_run := true } env)
              (({} : Stats), db, fs)).1.processed
            = (s.foldl (processOne { cfg with dry_run := false } env)
              (({} : Stats), db, fs)).1.processed
        rw [hdN, hrN]

/-- C5, witness: on a three-file source with distinct names and batch size
2, the dry run touches neither the store nor the target, and reports the
same processed count as the real run. -/
theorem C5_witness :
    (process_batch { Cfg.mk 2 false [] false with dry_run := true } envX listingW
        (DB.mk [] []) (FS.mk []) 3).2 = (DB.mk [] [], FS.mk [])
    ∧ (process_batch { Cfg.mk 2 false [] false with dry_run := true } envX listingW
        (DB.mk [] []) (FS.mk []) 3).1.processed
      = (process_batch { Cfg.mk 2 false [] false with dry_run := false } envX listingW
        (DB.mk [] []) (FS.mk []) 3).1.processed :=
  ⟨(C5_dry_run_purity_amended (Cfg.mk 2 false [] false) envX listingW (DB.mk [] [])
      (FS.mk []) 3).1,
   (C5_dry_run_purity_amended (Cfg.mk 2 false [] false) envX listingW (DB.mk [] [])
      (FS.mk []) 3).2 (by decide) (by decide) (fun _ => rfl)⟩

/-! Lemmas for the sortedness and first-remaining-file claims. -/

theorem charListLe_refl : ∀ x : List Char, charListLe x x = true := by
  intro x
  induction x with
  | nil => simp [charListLe]
  | cons a as ih => simp [charListLe, ih]

theorem nameLe_refl (f : SrcFile) : nameLe f f :=
  charListLe_refl f.name.toList

theorem take_one_filter_eq {α : Type} (p : α → Bool) (l : List α) (f : α)
    (h : l.find? p = some f) : (l.filter p).take 1 = [f] := by
  induction l with
  | nil => simp [List.find?] at h
  | cons a rest ih =>
    by_cases hp : p a = true
    · rw [List.find?_cons_of_pos _ hp] at h
      injection h with h
      subst h
      simp [List.filter_cons_of_pos, hp]
    · rw [List.find?_cons_of_neg _ (by simpa using hp)] at h
      rw [List.filter_cons_of_neg (by simpa using hp)]
      exact ih h

theorem find?_first_min (l : List SrcFile) (p : SrcFile → Bool) (f : SrcFile)
    (hs : l.Pairwise nameLe) (h : l.find? p = some f) :
    ∀ g ∈ l, p g = true → nameLe f g := by
  induction l with
  | nil => simp [List.find?] at h
  | cons a rest ih =>
    rcases List.pairwise_cons.mp hs with ⟨ha, hrest⟩
    by_cases hp : p a = true
    · rw [List.find?_cons_of_pos _ hp] at h
      injection h with h
      subst h
      intro g hg _
      rcases List.mem_cons.mp hg with hq | hg'
      · subst hq
        exact nameLe_refl _
      · exact ha g hg'
    · rw [List.find?_cons_of_neg _ (by simpa using hp)] at h
      intro g hg hpg
      rcases List.mem_cons.mp hg with hq | hg'
      · subst hq
        exact absurd hpg hp
      · exact ih hrest h g hg' hpg

/-- C6: the sequence returned by `get_source_files` is sorted
lexicographically by base filename (and is exactly the non-excluded part of
the enumeration, independent of discovery order); consequently, with batch
size 1, a run processes precisely the alphabetically first remaining
unprocessed non-excluded file. -/
theorem C6_sorted_selection (listing : List SrcFile) (pats : List String) :
    (get_source_files listing pats).Sorted nameLe
    ∧ (get_source_files listing pats).Perm
        (listing.filter (fun f => !(is_excluded pats f.name)))
    ∧ ∀ (cfg : Cfg) (env : Env) (db : DB) (fs : FS) (elapsed : Nat) (f : SrcFile),
        cfg.batch_size = 1 → cfg.dry_run = false → cfg.exclude_patterns = pats →
        (get_source_files listing pats).find?
          (fun g => !(db.is_file_processed g.name)) = some f →
        fs.fileExists f.name = false →
        env.writtenSize f.path = f.size →
        env.dbInsertFails f.name = false →
        (process_batch cfg env listing db fs elapsed).1.files_processed = [f.name]
        ∧ ∀ g ∈ get_source_files listing pats,
            db.is_file_processed g.name = false → nameLe f g := by
  refine ⟨get_source_files_sorted listing pats, get_source_files_perm listing pats, ?_⟩
  intro cfg env db fs elapsed f hb1 hdry hpats hfind hfs hw hdbf
  have hfp : db.is_file_processed f.name = false := by
    have := List.find?_some hfind
    simpa using this
  have hfmem : f ∈ get_source_files listing pats := List.mem_of_find?_eq_some hfind
  have hne : get_source_files listing pats ≠ [] := by
    intro hcon
    rw [hcon] at hfind
    simp [List.find?] at hfind
  have hfc : (get_source_files listing pats).filter
        (fun g => decide (g.name ∈ db.get_unprocessed_files
          ((get_source_files listing pats).map SrcFile.name)))
      = (get_source_files listing pats).filter (fun g => !(db.is_file_processed g.name)) := by
    apply List.filter_congr
    intro g hg
    by_cases hq : db.is_file_processed g.name = true
    · simp [DB.get_unprocessed_files, List.mem_filter, hq]
    · have hq' : db.is_file_processed g.name = false := by simpa using hq
      have hmem : g.name ∈ db.get_unprocessed_files
          ((get_source_files listing pats).map SrcFile.name) :=
        List.mem_filter.mpr ⟨List.mem_map_of_mem SrcFile.name hg, by simp [hq']⟩
      simp [hmem, hq']
  have hsel : selectFiles
        (db.get_unprocessed_files ((get_source_files listing pats).map SrcFile.name))
        cfg.batch_size (get_source_files listing pats) [] = [f] := by
    rw [selectFiles_eq_take_filter _ _ _ [] (by simp [hb1])]
    rw [List.nil_append, hb1, hfc]
    simp only [List.length_nil, Nat.sub_zero]
    exact take_one_filter_eq _ _ f hfind
  constructor
  · rw [process_batch_eq, hpats, if_neg (by simp [hne]), hsel,
      if_neg (by simp)]
    rw [foldl_processOne_clean cfg env hdry [f] {} db fs (by simp)
      (by intro g hg; simp at hg; subst hg; exact hfp)
      (by intro g hg; simp at hg; subst hg; exact hfs)
      (by intro g hg; simp at hg; subst hg; exact hw)
      (by intro g hg; simp at hg; subst hg; exact hdbf)]
    simp
  · intro g hg hgproc
    exact find?_first_min (get_source_files listing pats) _ f
      (get_source_files_sorted listing pats) hfind g hg (by simp [hgproc])

/-- C6, witness: with `a.txt` already recorded and batch size 1, the run
processes exactly `b.jpg`, the alphabetically first remaining non-excluded
file. -/
theorem C6_witness :
    (process_batch cfgW envX listingW
        (DB.mk [FRecord.mk "a.txt" "src/a.txt" "a.txt" 1 none] []) (FS.mk [])
        2).1.files_processed = ["b.jpg"] :=
  ((C6_sorted_selection listingW ["*.tmp"]).2.2 cfgW envX
    (DB.mk [FRecord.mk "a.txt" "src/a.txt" "a.txt" 1 none] []) (FS.mk []) 2
    (SrcFile.mk "src/b.jpg" "b.jpg" 1) rfl rfl rfl (by decide) (by decide) rfl rfl).1

/-- C7, counterexample: on an empty source directory, and likewise when
every source file is already recorded, `process_batch` returns the
zero-initialised statistics whose duration key is absent (`none`), not the
elapsed wall-clock time — the claim fails on exactly the two cases it
includes. -/
theorem C7_counterexample :
    (process_batch cfgX envX ([] : List SrcFile) (DB.mk [] []) (FS.mk []) 7).1.duration = none
    ∧ (process_batch cfgX envX [SrcFile.mk "a/x.txt" "x.txt" 1]
        (DB.mk [FRecord.mk "x.txt" "a/x.txt" "x.txt" 1 none] [])
        (FS.mk [("x.txt", 1)]) 7).1.duration = none :=
  ⟨by decide, by decide⟩

/-- C7 (amended): the duration field of a `process_batch` result equals the
wall-clock elapsed time of the batch exactly when at least one file was
selected for processing; on the two early-return paths (empty source
enumeration, or every source file already processed) the result carries no
duration at all. -/
theorem C7_duration_amended (cfg : Cfg) (env : Env) (listing : List SrcFile)
    (db : DB) (fs : FS) (elapsed : Nat) :
    (process_batch cfg env listing db fs elapsed).1.duration
      = if selectFiles (db.get_unprocessed_files
            ((get_source_files listing cfg.exclude_patterns).map SrcFile.name))
          cfg.batch_size (get_source_files listing cfg.exclude_patterns) [] = []
        then none else some elapsed := by
  rw [process_batch_eq]
  by_cases h1 : (get_source_files listing cfg.exclude_patterns).isEmpty = true
  · have hnil : get_source_files listing cfg.exclude_patterns = [] :=
      List.isEmpty_iff.mp h1
    simp [h1, hnil, selectFiles]
  · simp only [h1, if_false, Bool.false_eq_true]
    by_cases h2 : (selectFiles
        (db.get_unprocessed_files
          ((get_source_files listing cfg.exclude_patterns).map SrcFile.name))
        cfg.batch_size (get_source_files listing cfg.exclude_patterns) []).isEmpty = true
    · simp [h2, List.isEmpty_iff.mp h2]
    · have h2' : selectFiles
          (db.get_unprocessed_files
            ((get_source_files listing cfg.exclude_patterns).map SrcFile.name))
          cfg.batch_size (get_source_files listing cfg.exclude_patterns) [] ≠ [] := by
        simpa [List.isEmpty_iff] using h2
      simp [h2, h2']

/-- C8, counterexample: a configuration/startup failure raised as a
`ValueError` (here: a non-positive batch size) exits with code 1, the very
code used for a batch that ran with per-file errors — not a code distinct
from 0 and 1 as the claim requires. -/
theorem C8_counterexample :
    exit_code (RunOutcome.valueError "batch_size must be positive: 0") = 1
    ∧ exit_code (RunOutcome.completed { ({} : Stats) with errors := 1 }) = 1 :=
  ⟨rfl, rfl⟩

/-- C8 (amended): after a completed batch the exit code is 1 when the batch
reported at least one per-file error and 0 otherwise; configuration/startup
failures surfacing as `FileNotFoundError` or `ValueError` also exit with
code 1 (not a distinct code), and only other unexpected exceptions exit
with the distinct code 2. -/
theorem C8_exit_code_amended :
    (∀ (cfg : Cfg) (env : Env) (listing : List SrcFile) (db : DB) (fs : FS) (elapsed : Nat),
      exit_code (RunOutcome.completed (process_batch cfg env listing db fs elapsed).1)
        = if (process_batch cfg env listing db fs elapsed).1.errors > 0 then 1 else 0)
    ∧ (∀ m : String,
        exit_code (RunOutcome.fileNotFound m) = 1
        ∧ exit_code (RunOutcome.valueError m) = 1
        ∧ exit_code (RunOutcome.otherError m) = 2) :=
  ⟨fun _ _ _ _ _ _ => rfl, fun _ => ⟨rfl, rfl, rfl⟩⟩

/-! Names appearing in the per-file outcome lists all come from the batch. -/

theorem processOne_lists_mem (cfg : Cfg) (env : Env) (st : PState) (f : SrcFile)
    (n : String) :
    (n ∈ (processOne cfg env st f).1.files_processed →
      n ∈ st.1.files_processed ∨ n = f.name)
    ∧ (n ∈ (processOne cfg env st f).1.files_skipped →
      n ∈ st.1.files_skipped ∨ n = f.name)
    ∧ (n ∈ (processOne cfg env st f).1.files_errors.map Prod.fst →
      n ∈ st.1.files_errors.map Prod.fst ∨ n = f.name) := by
  obtain ⟨stats, db, fs⟩ := st
  simp only [processOne]
  by_cases h1 : db.is_file_processed f.name = true
  · refine ⟨?_, ?_, ?_⟩ <;> intro hmem <;>
      simp only [h1, if_true, List.mem_append, List.mem_singleton] at hmem <;> tauto
  · simp only [h1, if_false, Bool.false_eq_true]
    by_cases h2 : (copy_file cfg env fs f f.name).1.1 = false
    · refine ⟨?_, ?_, ?_⟩ <;> intro hmem <;>
        simp only [h2, if_true, List.map_append, List.mem_append, List.map_cons,
          List.map_nil, List.mem_singleton] at hmem <;> tauto
    · simp only [h2, Bool.true_eq_false, if_false]
      by_cases h3 : cfg.dry_run = true
      · refine ⟨?_, ?_, ?_⟩ <;> intro hmem <;>
          simp only [h3, if_true, List.mem_append, List.mem_singleton] at hmem <;> tauto
      · simp only [h3, if_false, Bool.false_eq_true]
        cases hadd : db.add_processed_file env (mkRecord cfg env f) with
        | ok db1 =>
          refine ⟨?_, ?_, ?_⟩ <;> intro hmem <;>
            simp only [List.mem_append, List.mem_singleton] at hmem <;> tauto
        | error e =>
          refine ⟨?_, ?_, ?_⟩ <;> intro hmem <;>
            simp only [List.map_append, List.mem_append, List.map_cons, List.map_nil,
              List.mem_singleton] at hmem <;> tauto

theorem foldl_processOne_lists_mem (cfg : Cfg) (env : Env) (L : List SrcFile) :
    ∀ (st : PState) (n : String),
      (n ∈ (L.foldl (processOne cfg env) st).1.files_processed →
        n ∈ st.1.files_processed ∨ n ∈ L.map SrcFile.name)
      ∧ (n ∈ (L.foldl (processOne cfg env) st).1.files_skipped →
        n ∈ st.1.files_skipped ∨ n ∈ L.map SrcFile.name)
      ∧ (n ∈ (L.foldl (processOne cfg env) st).1.files_errors.map Prod.fst →
        n ∈ st.1.files_errors.map Prod.fst ∨ n ∈ L.map SrcFile.name) := by
  induction L with
  | nil =>
    intro st n
    refine ⟨?_, ?_, ?_⟩ <;> intro hmem <;> exact Or.inl hmem
  | cons f rest ih =>
    intro st n
    rw [List.foldl_cons]
    obtain ⟨ihp, ihs, ihe⟩ := ih (processOne cfg env st f) n
    obtain ⟨sp, ss, se⟩ := processOne_lists_mem cfg env st f n
    refine ⟨fun hmem => ?_, fun hmem => ?_, fun hmem => ?_⟩
    · rcases ihp hmem with h | h
      · rcases sp h with h' | h' <;> simp [h']
      · simp [h]
    · rcases ihs hmem with h | h
      · rcases ss h with h' | h' <;> simp [h']
      · simp [h]
    · rcases ihe hmem with h | h
      · rcases se h with h' | h' <;> simp [h']
      · simp [h]

/-- C9: a base filename matching at least one configured exclude glob never
appears in the processed, skipped, or error lists of any `process_batch`
result — excluded files are invisible to the pipeline. -/
theorem C9_exclusion (cfg : Cfg) (env : Env) (listing : List SrcFile)
    (db : DB) (fs : FS) (elapsed : Nat) (n : String)
    (hex : is_excluded cfg.exclude_patterns n = true) :
    n ∉ (process_batch cfg env listing db fs elapsed).1.files_processed
    ∧ n ∉ (process_batch cfg env listing db fs elapsed).1.files_skipped
    ∧ n ∉ (process_batch cfg env listing db fs elapsed).1.files_errors.map Prod.fst := by
  have hnames : ∀ g ∈ get_source_files listing cfg.exclude_patterns, ¬ g.name = n := by
    intro g hg hcon
    have := ((get_source_files_mem listing cfg.exclude_patterns g).mp hg).2
    rw [hcon, hex] at this
    cases this
  rw [process_batch_eq]
  by_cases h1 : (get_source_files listing cfg.exclude_patterns).isEmpty = true
  · simp [h1]
  · simp only [h1, if_false, Bool.false_eq_true]
    by_cases h2 : (selectFiles
        (db.get_unprocessed_files
          ((get_source_files listing cfg.exclude_patterns).map SrcFile.name))
        cfg.batch_size (get_source_files listing cfg.exclude_patterns) []).isEmpty = true
    · simp [h2]
    · simp only [h2, if_false, Bool.false_eq_true]
      obtain ⟨s, hs, hsub⟩ := selectFiles_split
        (db.get_unprocessed_files
          ((get_source_files listing cfg.exclude_patterns).map SrcFile.name))
        cfg.batch_size (get_source_files listing cfg.exclude_patterns) []
      rw [hs]
      simp only [List.nil_append]
      have hnot : n ∉ s.map SrcFile.name := by
        intro hmem
        obtain ⟨g, hg, hgn⟩ := List.mem_map.mp hmem
        exact hnames g (hsub.mem hg) hgn
      obtain ⟨hp, hsk, he⟩ := foldl_processOne_lists_mem cfg env s (({} : Stats), db, fs) n
      refine ⟨fun hmem => ?_, fun hmem => ?_, fun hmem => ?_⟩
      · rcases hp (by simpa using hmem) with h | h
        · simp at h
        · exact hnot h
      · rcases hsk (by simpa using hmem) with h | h
        · simp at h
        · exact hnot h
      · rcases he (by simpa using hmem) with h | h
        · simp at h
        · exact hnot h

/-- C9, witness: `c.tmp` matches the exclude glob `*.tmp` and therefore
appears in none of the outcome lists of the scenario run. -/
theorem C9_witness :
    "c.tmp" ∉ (process_batch cfgW envX listingW (DB.mk [] []) (FS.mk [])
        1).1.files_processed
    ∧ "c.tmp" ∉ (process_batch cfgW envX listingW (DB.mk [] []) (FS.mk [])
        1).1.files_skipped
    ∧ "c.tmp" ∉ (process_batch cfgW envX listingW (DB.mk [] []) (FS.mk [])
        1).1.files_errors.map Prod.fst :=
  C9_exclusion cfgW envX listingW (DB.mk [] []) (FS.mk []) 1 "c.tmp" (by decide)

/-! Lemmas for orphan cleaning. -/

theorem map_fst_filter (p : String → Bool) (l : List (String × Nat)) :
    (l.filter (fun e => p e.1)).map Prod.fst = (l.map Prod.fst).filter p := by
  induction l with
  | nil => simp
  | cons e rest ih =>
    by_cases hp : p e.1 = true
    · simp [List.filter_cons, hp, ih]
    · simp [List.filter_cons, hp, ih]

theorem foldl_unlink (ns : List String) :
    ∀ fs : FS, (ns.foldl (fun acc n => acc.unlink n) fs).target
      = fs.target.filter (fun e => !(decide (e.1 ∈ ns))) := by
  induction ns with
  | nil => intro fs; simp
  | cons n rest ih =>
    intro fs
    rw [List.foldl_cons, ih]
    simp only [FS.unlink, List.filter_filter]
    apply List.filter_congr
    intro e _
    by_cases h1 : e.1 = n
    · simp [h1]
    · by_cases h2 : e.1 ∈ rest <;> simp [h1, h2]

/-- C10: `clean_target_orphans` deletes (in real mode) or merely counts
without deleting (in simulation mode) exactly the target-directory files
that have no ProcessedFileRecord, returns that count, and never deletes a
target file that has a record: the surviving target entries are exactly the
recorded ones. -/
theorem C10_clean_orphans (db : DB) (fs : FS)
    (hnd : (fs.target.map Prod.fst).Nodup) :
    (clean_target_orphans false db fs).2.target
        = fs.target.filter (fun e => db.is_file_processed e.1)
    ∧ (clean_target_orphans false db fs).1
        = (fs.target.filter (fun e => !(db.is_file_processed e.1))).length
    ∧ (clean_target_orphans true db fs).2 = fs
    ∧ (clean_target_orphans true db fs).1
        = (fs.target.filter (fun e => !(db.is_file_processed e.1))).length := by
  have horph : ((fs.target.map Prod.fst).filter
        (fun n => !(decide (n ∈ (fs.target.map Prod.fst).filter
          (fun m => db.is_file_processed m))))).dedup
      = (fs.target.map Prod.fst).filter (fun n => !(db.is_file_processed n)) := by
    have hcong : (fs.target.map Prod.fst).filter
          (fun n => !(decide (n ∈ (fs.target.map Prod.fst).filter
            (fun m => db.is_file_processed m))))
        = (fs.target.map Prod.fst).filter (fun n => !(db.is_file_processed n)) := by
      apply List.filter_congr
      intro n hn
      by_cases hq : db.is_file_processed n = true
      · have : n ∈ (fs.target.map Prod.fst).filter (fun m => db.is_file_processed m) :=
          List.mem_filter.mpr ⟨hn, hq⟩
        simp [this, hq]
      · have : n ∉ (fs.target.map Prod.fst).filter (fun m => db.is_file_processed m) := by
          intro hmem
          exact hq (List.mem_filter.mp hmem).2
        simp [this, hq]
    rw [hcong]
    exact List.Nodup.dedup ((List.filter_sublist _).nodup hnd)
  have hlen : ((fs.target.map Prod.fst).filter (fun n => !(db.is_file_processed n))).length
      = (fs.target.filter (fun e => !(db.is_file_processed e.1))).length := by
    rw [← map_fst_filter (fun n => !(db.is_file_processed n)) fs.target,
      List.length_map]
  by_cases hempty : (verify_target_files fs).isEmpty = true
  · have hnil : fs.target = [] := by
      have := List.isEmpty_iff.mp hempty
      simpa [verify_target_files] using this
    refine ⟨?_, ?_, ?_, ?_⟩ <;> simp [clean_target_orphans, hempty, hnil]
  · by_cases horphempty : ((fs.target.map Prod.fst).filter
        (fun n => !(db.is_file_processed n))).isEmpty = true
    · have hall : ∀ e ∈ fs.target, db.is_file_processed e.1 = true := by
        intro e he
        by_cases hq : db.is_file_processed e.1 = true
        · exact hq
        · exfalso
          have hmem : e.1 ∈ (fs.target.map Prod.fst).filter
              (fun n => !(db.is_file_processed n)) :=
            List.mem_filter.mpr ⟨List.mem_map_of_mem Prod.fst he, by simp [hq]⟩
          rw [List.isEmpty_iff.mp horphempty] at hmem
          cases hmem
      have hz : (fs.target.filter (fun e => !(db.is_file_processed e.1))).length = 0 := by
        rw [List.length_eq_zero, List.filter_eq_nil_iff]
        intro e he
        simp [hall e he]
      have hfull : fs.target.filter (fun e => db.is_file_processed e.1) = fs.target :=
        List.filter_eq_self.mpr (fun e he => hall e he)
      have hoe : (((verify_target_files fs).filter
            (fun n => !(decide (n ∈ (verify_target_files fs).filter
              (fun m => db.is_file_processed m))))).dedup).isEmpty = true := by
        rw [show ((verify_target_files fs).filter
            (fun n => !(decide (n ∈ (verify_target_files fs).filter
              (fun m => db.is_file_processed m))))).dedup
            = (fs.target.map Prod.fst).filter (fun n => !(db.is_file_processed n))
          from horph]
        exact horphempty
      refine ⟨?_, ?_, ?_, ?_⟩ <;>
        simp only [clean_target_orphans, hempty, Bool.false_eq_true, if_false, hoe,
          if_true, hz, hfull]
    · have hoe : (((verify_target_files fs).filter
            (fun n => !(decide (n ∈ (verify_target_files fs).filter
              (fun m => db.is_file_processed m))))).dedup).isEmpty = false := by
        rw [show ((verify_target_files fs).filter
            (fun n => !(decide (n ∈ (verify_target_files fs).filter
              (fun m => db.is_file_processed m))))).dedup
            = (fs.target.map Prod.fst).filter (fun n => !(db.is_file_processed n))
          from horph]
        simpa using horphempty
      have hunlink : ((((verify_target_files fs).filter
            (fun n => !(decide (n ∈ (verify_target_files fs).filter
              (fun m => db.is_file_processed m))))).dedup).foldl
            (fun acc n => acc.unlink n) fs).target
          = fs.target.filter (fun e => db.is_file_processed e.1) := by
        rw [show ((verify_target_files fs).filter
            (fun n => !(decide (n ∈ (verify_target_files fs).filter
              (fun m => db.is_file_processed m))))).dedup
            = (fs.target.map Prod.fst).filter (fun n => !(db.is_file_processed n))
          from horph]
        rw [foldl_unlink]
        apply List.filter_congr
        intro e he
        by_cases hq : db.is_file_processed e.1 = true
        · have : e.1 ∉ (fs.target.map Prod.fst).filter
              (fun n => !(db.is_file_processed n)) := by
            intro hmem
            have := (List.mem_filter.mp hmem).2
            rw [hq] at this
            cases this
          simp [this, hq]
        · have : e.1 ∈ (fs.target.map Prod.fst).filter
              (fun n => !(db.is_file_processed n)) :=
            List.mem_filter.mpr ⟨List.mem_map_of_mem Prod.fst he, by simp [hq]⟩
          simp [this, hq]
      have hcount : (((verify_target_files fs).filter
            (fun n => !(decide (n ∈ (verify_target_files fs).filter
              (fun m => db.is_file_processed m))))).dedup).length
          = (fs.target.filter (fun e => !(db.is_file_processed e.1))).length := by
        rw [show ((verify_target_files fs).filter
            (fun n => !(decide (n ∈ (verify_target_files fs).filter
              (fun m => db.is_file_processed m))))).dedup
            = (fs.target.map Prod.fst).filter (fun n => !(db.is_file_processed n))
          from horph]
        exact hlen
      refine ⟨?_, ?_, ?_, ?_⟩ <;>
        simp only [clean_target_orphans, hempty, Bool.false_eq_true, if_false, hoe,
          if_true, hunlink, hcount]

/-- C10, witness: a target holding a tracked file `t.txt` and an orphan
`o.txt`; real mode deletes exactly the orphan and returns 1, simulation
mode returns 1 and deletes nothing. -/
theorem C10_witness :
    (clean_target_orphans false (DB.mk [FRecord.mk "t.txt" "s" "t" 5 none] [])
        (FS.mk [("t.txt", 5), ("o.txt", 3)])).2.target
      = (FS.mk [("t.txt", 5), ("o.txt", 3)]).target.filter
          (fun e => (DB.mk [FRecord.mk "t.txt" "s" "t" 5 none] []).is_file_processed e.1)
    ∧ (clean_target_orphans false (DB.mk [FRecord.mk "t.txt" "s" "t" 5 none] [])
        (FS.mk [("t.txt", 5), ("o.txt", 3)])).1
      = ((FS.mk [("t.txt", 5), ("o.txt", 3)]).target.filter
          (fun e => !((DB.mk [FRecord.mk "t.txt" "s" "t" 5 none] []).is_file_processed
            e.1))).length
    ∧ (clean_target_orphans true (DB.mk [FRecord.mk "t.txt" "s" "t" 5 none] [])
        (FS.mk [("t.txt", 5), ("o.txt", 3)])).2 = FS.mk [("t.txt", 5), ("o.txt", 3)]
    ∧ (clean_target_orphans true (DB.mk [FRecord.mk "t.txt" "s" "t" 5 none] [])
        (FS.mk [("t.txt", 5), ("o.txt", 3)])).1
      = ((FS.mk [("t.txt", 5), ("o.txt", 3)]).target.filter
          (fun e => !((DB.mk [FRecord.mk "t.txt" "s" "t" 5 none] []).is_file_processed
            e.1))).length :=
  C10_clean_orphans (DB.mk [FRecord.mk "t.txt" "s" "t" 5 none] [])
    (FS.mk [("t.txt", 5), ("o.txt", 3)]) (by decide)
